import Mathlib

/-!
# MyLogger: a shallow embedding of the logging core

Sources embedded here:
* `src/ILogger.hpp`  : `Severity`, `Value`, the fluent `ILogger` interface;
* `src/ILogger.cpp`  : `time`, `severity`, `funcline`, `eol`, the two `log` overloads;
* `src/Logger.cpp`   : the label table, `open`, `close`, `changeLog`, `write`,
  `header`, `footer`;
* `include/MyLogger/Logger.hpp` : the `LOG_INSTANCE*` chains.

Conventions.
* A `char` buffer or a `const char*` is a `List Char`; the C string it denotes
  is the part before the first NUL (`cstr`).
* A call whose C++ behaviour is undefined on some inputs returns `Except Fault`:
  an index outside `m_buffer`, a `lock()` on a held mutex, an `unlock()` of a
  free one, a read of a union member that was not stored.
* The state `Logger` holds the members of the class, the content of the files,
  and a ghost `trace` of the mutex operations and of the calls of `write`.
* The wall clock readings are arguments of the operations that take them; the
  directory utilities of `File.hpp`, the number-to-text conversion of floating
  point values and the virtual `funclineFormat` and `endOfLine` are fields of
  `Host`; the `config` namespace is the record `Config`.
* The standard library is modelled as far as the sources use it: `vsnprintf`,
  `std::ostringstream` (`put`, `seekp`, `str`) and `std::ofstream`.  The text
  `vsnprintf` renders is computed for the conversions `%s`, `%d`, `%u`, `%c` and
  `%%` (`vformat`); for every other format it is the text the C library of the
  host gives (`Host.renderOther`), so that `log` renders every format (`vrender`).
* Concurrent callers are threads that take turns on one shared logger, one call
  at a time; a `lock()` on a held mutex waits (`turn`, `schedule`).
-/

namespace MyLogger

/-- Text as a sequence of characters (a `char` array or a `std::string`). -/
abbrev Str := List Char

/-- The NUL character that ends a C string. -/
def NUL : Char := '\x00'

/-- The C string a `const char*` denotes: the characters before the first NUL. -/
def cstr (p : Str) : Str := p.takeWhile (fun c => c != NUL)

/-- C library `strlen`. -/
def strlen (p : Str) : Nat := (cstr p).length

/-! ## Severity and its label table (ILogger.hpp 37-41, Logger.cpp 59-71) -/

/-- The enumeration `Severity` of ILogger.hpp. -/
inductive Severity
  | None | Info | Debug | Warning | Failed | Error | Signal | Exception | Catch | Fatal
  deriving DecidableEq, Repr

/-- The integer value of an enumerator, in declaration order. -/
def Severity.toNat : Severity → Nat
  | .None => 0 | .Info => 1 | .Debug => 2 | .Warning => 3 | .Failed => 4
  | .Error => 5 | .Signal => 6 | .Exception => 7 | .Catch => 8 | .Fatal => 9

/-- The enumerator `MaxLoggerSeverity = Fatal`. -/
def MaxLoggerSeverity : Nat := Severity.Fatal.toNat

/-- The table `c_str_severity` of Logger.cpp, one entry per designated index. -/
def c_str_severity : List Str :=
  [ "".toList, "[INFO]".toList, "[DEBUG]".toList, "[WARNING]".toList,
    "[FAILURE]".toList, "[ERROR]".toList, "[SIGNAL]".toList, "[THROW]".toList,
    "[CATCH]".toList, "[FATAL]".toList ]

/-- Modelled from the spec: `Logger::severityToStr`, whose body is not among the
sources, is the fixed lookup `c_str_severity[s]` that `beginOfLine` and
`operator<<(const Severity&)` of Logger.cpp perform; `none` would be a read
outside the table. -/
def severityToStr (s : Severity) : Option Str := c_str_severity[s.toNat]?

/-! ## Tagged values (ILogger.hpp 46-101) -/

/-- The anonymous tag enumeration of `Value`. -/
inductive ValueTag
  | BOOL | FLOAT | DOUBLE | INT | UNSIGNED | STRING
  deriving DecidableEq, Repr

/-- The anonymous union of `Value`: the member that was stored last.  A `float`
or `double` is kept as its bit pattern. -/
inductive ValueUnion
  | f (bits : Nat) | d (bits : Nat) | i (v : Int) | u (v : Nat) | b (v : Bool) | s (p : Str)
  deriving DecidableEq, Repr

/-- The struct `Value`: a union and its discriminant. -/
structure Value where
  un : ValueUnion
  tag : ValueTag
  deriving DecidableEq, Repr

/-- Constructor `Value(int)`. -/
def Value.ofInt (i_ : Int) : Value := ⟨.i i_, .INT⟩
/-- Constructor `Value(unsigned int)`. -/
def Value.ofUnsigned (u_ : Nat) : Value := ⟨.u u_, .UNSIGNED⟩
/-- Constructor `Value(float)`. -/
def Value.ofFloat (f_ : Nat) : Value := ⟨.f f_, .FLOAT⟩
/-- Constructor `Value(double)`. -/
def Value.ofDouble (d_ : Nat) : Value := ⟨.d d_, .DOUBLE⟩
/-- Constructor `Value(bool)`. -/
def Value.ofBool (b_ : Bool) : Value := ⟨.b b_, .BOOL⟩
/-- Constructor `Value(const char*)`. -/
def Value.ofString (s_ : Str) : Value := ⟨.s s_, .STRING⟩

/-- Decimal text of a signed integer, as `operator<<` and `%d` print it. -/
def decimal (v : Int) : Str :=
  if v < 0 then '-' :: Nat.toDigits 10 v.natAbs else Nat.toDigits 10 v.natAbs

/-- A variadic argument, after the default promotions: a `const char*`, a signed
or an unsigned integer, a character, a `double` kept as its bit pattern, or a
pointer of another kind. -/
inductive Arg
  | str (p : Str) | int (v : Int) | uint (v : Nat) | char (c : Char)
  | double (bits : Nat) | pointer (address : Nat)
  deriving DecidableEq, Repr

/-- What the logger takes from outside the four source files. -/
structure Host where
  /-- Text `operator<<` gives a `float` with this bit pattern. -/
  showFloat : Nat → Str
  /-- Text `operator<<` gives a `double` with this bit pattern. -/
  showDouble : Nat → Str
  /-- Result of `File::dirName`. -/
  dirName : Str → Str
  /-- Result of `File::mkdir`. -/
  mkdir : Str → Bool
  /-- Whether `std::ofstream::open` manages to create or truncate the file. -/
  canCreate : Str → Bool
  /-- Result of the virtual `funclineFormat()`. -/
  funclineFormat : Str
  /-- Result of the virtual `endOfLine()`. -/
  endOfLine : Str
  /-- Text the `vsnprintf` of the C library renders for a format and arguments
  that `vformat` does not render: another conversion, a flag, a width, a
  precision or a length modifier, or arguments that do not match the format. -/
  renderOther : Str → List Arg → Str

/-- Stream insertion `operator<<(std::ostream&, const Value&)`: the text put on
the stream; `none` when the tag selects a union member other than the stored one. -/
def Value.render (host : Host) (v : Value) : Option Str :=
  match v.tag, v.un with
  | .INT, .i x => some (decimal x)
  | .UNSIGNED, .u x => some (Nat.toDigits 10 x)
  | .FLOAT, .f x => some (host.showFloat x)
  | .DOUBLE, .d x => some (host.showDouble x)
  | .BOOL, .b x => some (if x then ['1'] else ['0'])
  | .STRING, .s p => some (cstr p)
  | _, _ => none

/-! ## The standard streams used by the sources -/

/-- A `std::ostringstream`: its character sequence, its put position and failbit. -/
structure OStringStream where
  buf : Str
  pos : Nat
  failbit : Bool
  deriving DecidableEq, Repr

/-- A freshly constructed `std::ostringstream`. -/
def OStringStream.empty : OStringStream := ⟨[], 0, false⟩

/-- Formatted insertion of a text: it is written at the put position, over what
is there, and the put position moves behind it. -/
def OStringStream.put (os : OStringStream) (t : Str) : OStringStream :=
  if os.failbit then os
  else { os with buf := os.buf.take os.pos ++ t ++ os.buf.drop (os.pos + t.length),
                 pos := os.pos + t.length }

/-- Member `seekp(off, std::ios_base::end)`: only the put position moves; a target
outside the sequence sets failbit. -/
def OStringStream.seekpEnd (os : OStringStream) (off : Int) : OStringStream :=
  if os.failbit then os
  else
    let target : Int := (os.buf.length : Int) + off
    if 0 ≤ target ∧ target ≤ (os.buf.length : Int) then { os with pos := target.toNat }
    else { os with failbit := true }

/-- Member `str()`: the whole character sequence, whatever the put position. -/
def OStringStream.str (os : OStringStream) : Str := os.buf

/-- A `std::ofstream`: the file it is associated with when open, and failbit. -/
structure OFStream where
  path : Option Str
  failbit : Bool
  deriving DecidableEq, Repr

/-- Member `is_open()`. -/
def OFStream.is_open (f : OFStream) : Bool := f.path.isSome

/-! ## printf-style rendering -/

/-- The text a printf-family call renders, computed for the conversions `%s`,
`%d`, `%u`, `%c` and `%%`.  The format is read as a C string; surplus arguments
are ignored; `none` for a format outside this fragment (any other conversion, or
an argument of another kind), whose text `vrender` takes from the host. -/
def vformat : Str → List Arg → Option Str
  | [], _ => some []
  | c :: rest, args =>
    if c = NUL then some []
    else if c = '%' then
      match rest, args with
      | 's' :: rest', Arg.str p :: args' => (cstr p ++ ·) <$> vformat rest' args'
      | 'd' :: rest', Arg.int v :: args' => (decimal v ++ ·) <$> vformat rest' args'
      | 'u' :: rest', Arg.uint v :: args' => (Nat.toDigits 10 v ++ ·) <$> vformat rest' args'
      | 'c' :: rest', Arg.char c :: args' => (c :: ·) <$> vformat rest' args'
      | '%' :: rest', args' => ('%' :: ·) <$> vformat rest' args'
      | _, _ => none
    else (c :: ·) <$> vformat rest args

/-- The text a printf-family call renders, for every format and arguments: the
one `vformat` computes, and the one the C library of the host gives for a format
outside the fragment of `vformat`. -/
def vrender (host : Host) (format : Str) (args : List Arg) : Str :=
  match vformat format args with
  | some rendered => rendered
  | none => host.renderOther format args

/-- C library `vsnprintf(buf, size, ...)` given the rendered text: at most
`size - 1` characters and a terminating NUL are stored, the rest of the buffer
is kept, and the length of the whole rendered text is returned. -/
def vsnprintf (buf : List Char) (size : Nat) (rendered : Str) : List Char × Nat :=
  if size = 0 then (buf, rendered.length)
  else
    let k := min rendered.length (size - 1)
    (rendered.take k ++ NUL :: buf.drop (k + 1), rendered.length)

/-! ## The logger state -/

/-- Undefined behaviour a call can run into. -/
inductive Fault
  /-- An index outside `m_buffer`. -/
  | outOfBounds
  /-- A `lock()` on a mutex that is held: in a sequential run it never returns. -/
  | deadlock
  /-- An `unlock()` of a mutex that is not held. -/
  | unlockFree
  /-- A read of a union member that is not the stored one. -/
  | inactiveMember
  deriving DecidableEq, Repr

/-- What an observer of the mutex and of the virtual `write` sees. -/
inductive Event
  | lock
  | unlock
  /-- A call of `write`: whether the mutex was held, and the text. -/
  | write (held : Bool) (message : Str)
  deriving DecidableEq, Repr

/-- The `config` namespace (the fields of `project::Info`). -/
structure Config where
  debug : Bool
  project_name : Str
  major_version : Nat
  minor_version : Nat
  git_sha1 : Str
  git_branch : Str
  data_path : Str
  tmp_path : Str
  log_name : Str
  log_path : Str

/-- State of a `Logger` together with the files it can reach.  `trace` is a ghost
field: it records the mutex operations and the calls of `write`. -/
structure Logger where
  /-- Member `ILogger::m_buffer`. -/
  m_buffer : List Char
  /-- Member `ILogger::m_mutex`: true while held. -/
  m_mutex : Bool
  /-- Member `Logger::m_file`. -/
  m_file : OFStream
  /-- Member `m_stream`, the mirror: `none` for `nullptr`, else what it received. -/
  m_stream : Option Str
  /-- Member `m_buffer_time`. -/
  m_buffer_time : Str
  /-- Content of the files, by path. -/
  disk : Str → Option Str
  /-- Ghost record of the events so far. -/
  trace : List Event

/-- Constructor `ILogger::ILogger(buffer_size)`, with the files and the mirror given. -/
def ILogger.init (buffer_size : Nat) (disk : Str → Option Str) (mirror : Option Str) : Logger :=
  { m_buffer := List.replicate (max 128 buffer_size) NUL
    m_mutex := false
    m_file := ⟨none, false⟩
    m_stream := mirror
    m_buffer_time := []
    disk := disk
    trace := [] }

/-! ## The sink (Logger.cpp 100-162) -/

/-- Member `std::ofstream::open(path)` in its default mode: the file is created
or emptied; a stream that is already open, or a file that cannot be created,
sets failbit; success clears the error state. -/
def Logger.fileOpen (host : Host) (path : Str) (L : Logger) : Logger :=
  if L.m_file.is_open then { L with m_file := { L.m_file with failbit := true } }
  else if host.canCreate path then
    { L with m_file := ⟨some path, false⟩
             disk := fun q => if q = path then some [] else L.disk q }
  else { L with m_file := { L.m_file with failbit := true } }

/-- The statements `m_file << message; m_file.flush();` : the text is appended to
the associated file unless the stream is in an error state. -/
def Logger.fileInsert (message : Str) (L : Logger) : Logger :=
  match L.m_file.path with
  | some p =>
    if L.m_file.failbit then L
    else { L with disk := fun q => if q = p then some ((L.disk p).getD [] ++ message)
                                   else L.disk q }
  | none => { L with m_file := { L.m_file with failbit := true } }

/-- Method `Logger::write(const char*)`: the mirror first, when there is one, then
the file, when one is open. -/
def Logger.write (message : Str) (L : Logger) : Logger :=
  let text := cstr message
  let L := { L with trace := L.trace ++ [Event.write L.m_mutex text] }
  let L := match L.m_stream with
    | some out => { L with m_stream := some (out ++ text) }
    | none => L
  if !L.m_file.is_open then L else L.fileInsert text

/-! ## The fluent interface (ILogger.hpp 141-175, ILogger.cpp 33-103) -/

/-- Method `ILogger::lock`. -/
def ILogger.lock (L : Logger) : Except Fault Logger :=
  if L.m_mutex then .error .deadlock
  else .ok { L with m_mutex := true, trace := L.trace ++ [Event.lock] }

/-- Method `ILogger::unlock`. -/
def ILogger.unlock (L : Logger) : Except Fault Logger :=
  if L.m_mutex then .ok { L with m_mutex := false, trace := L.trace ++ [Event.unlock] }
  else .error .unlockFree

/-- Method `ILogger::timeAndDateFormat`: `strftime` fills a static array of 32
characters, so the text returned has at most 31; `clock` is what the wall clock
renders to under the given format. -/
def timeAndDateFormat (clock : Str) : Str := (cstr clock).take 31

/-- Modelled from the spec: `currentTime()`, whose body is not among the sources,
gets the time text from `timeAndDateFormat` and, as the comment in ILogger.hpp
says, stores it inside `m_buffer_time`. -/
def Logger.currentTime (clock : Str) (L : Logger) : Str × Logger :=
  (timeAndDateFormat clock, { L with m_buffer_time := timeAndDateFormat clock })

/-- Modelled from the spec: `currentDate()`, whose body is not among the sources,
gets the date text from `timeAndDateFormat` and, as the comment in ILogger.hpp
says, stores it inside `m_buffer_time`. -/
def Logger.currentDate (clock : Str) (L : Logger) : Str × Logger :=
  (timeAndDateFormat clock, { L with m_buffer_time := timeAndDateFormat clock })

/-- Method `ILogger::time`. -/
def ILogger.time (clock : Str) (L : Logger) : Logger :=
  let r := Logger.currentTime clock L
  Logger.write r.1 r.2

/-- Method `ILogger::severity`. -/
def ILogger.severity (sev : Severity) (L : Logger) : Except Fault Logger :=
  match severityToStr sev with
  | some label => .ok (Logger.write label L)
  | none => .error .outOfBounds

/-- Method `ILogger::eol`. -/
def ILogger.eol (host : Host) (L : Logger) : Logger :=
  Logger.write host.endOfLine L

/-- The statements of `ILogger::log(const char* format, ...)`, given the text
`rendered` that the format and the arguments render to. -/
def ILogger.logRendered (rendered : Str) (L : Logger) : Except Fault Logger :=
  let r := vsnprintf L.m_buffer L.m_buffer.length rendered
  let bytes := r.2
  let n := bytes
  if 0 < bytes then
    match r.1[n - 1]? with
    | none => .error .outOfBounds
    | some c =>
      let buffer := if c = '\n' then r.1.set (n - 1) NUL else r.1
      .ok (Logger.write buffer { L with m_buffer := buffer })
  else .ok (Logger.write r.1 { L with m_buffer := r.1 })

/-- Method `ILogger::log(const char* format, ...)`. -/
def ILogger.log (host : Host) (format : Str) (args : List Arg) (L : Logger) :
    Except Fault Logger :=
  ILogger.logRendered (vrender host format args) L

/-- Method `ILogger::funcline`. -/
def ILogger.funcline (host : Host) (function : Str) (line : Int) (L : Logger) :
    Except Fault Logger :=
  ILogger.log host host.funclineFormat [Arg.str function, Arg.int line] L

/-- The loop `for (auto& it: list) stream << it << del;`. -/
def insertAll (host : Host) (del : Str) : List Value → OStringStream → Option OStringStream
  | [], os => some os
  | it :: rest, os =>
    match it.render host with
    | some t => insertAll host del rest ((os.put t).put (cstr del))
    | none => none

/-- Method `ILogger::log(std::initializer_list<Value> const&, const char* del)`. -/
def ILogger.logList (host : Host) (list : List Value) (del : Str) (L : Logger) :
    Except Fault Logger :=
  match insertAll host del list OStringStream.empty with
  | none => .error .inactiveMember
  | some stream =>
    let stream := stream.seekpEnd (-((strlen del : Nat) : Int))
    .ok (Logger.write stream.str L)

/-- Template `ILogger::operator<<(T const&)`, that is `log<T>(data)`; `data` is
the text `std::ostringstream << data` produces. -/
def ILogger.insert (data : Str) (L : Logger) : Logger :=
  Logger.write ((OStringStream.empty.put data).str) L

/-- Method `ILogger::operator<<(std::ostream& (*)(std::ostream&))`, reached by
`std::endl`. -/
def ILogger.endl (host : Host) (L : Logger) : Except Fault Logger :=
  match ILogger.unlock L with
  | .ok L => .ok (ILogger.eol host L)
  | .error e => .error e

/-- Method `Logger::operator<<(const Severity&)`. -/
def Logger.insertSeverity (sev : Severity) (L : Logger) : Except Fault Logger :=
  match c_str_severity[sev.toNat]? with
  | some label => .ok (Logger.write label L)
  | none => .error .outOfBounds

/-- Method `Logger::operator<<(const char*)`. -/
def Logger.insertCStr (msg : Str) (L : Logger) : Logger :=
  Logger.write msg L

/-! ## Header, footer and the life cycle of the file (Logger.cpp 75-146, 173-199) -/

/-- The delimiter line of the banners, without its newline. -/
def delimiter : Str := List.replicate 54 '='

/-- The format string of `Logger::header`. -/
def headerFormat : Str :=
  delimiter ++ ("\n  %s %s %u.%u - Event log - %s\n  git branch: %s\n  git SHA1: %s\n").toList
    ++ delimiter ++ "\n\n".toList

/-- The format string of `Logger::footer`. -/
def footerFormat : Str :=
  '\n' :: delimiter ++ "\n  %s log closed at %s\n".toList ++ delimiter ++ "\n\n".toList

/-- The arguments `Logger::header` passes after the format; `time` is the
content of `m_buffer_time`. -/
def headerArgs (cfg : Config) (time : Str) : List Arg :=
  [ Arg.str cfg.project_name,
    Arg.str (if cfg.debug then "Debug".toList else "Release".toList),
    Arg.uint cfg.major_version,
    Arg.uint cfg.minor_version,
    Arg.str time,
    Arg.str cfg.git_branch,
    Arg.str cfg.git_sha1 ]

/-- The arguments `Logger::footer` passes after the format. -/
def footerArgs (cfg : Config) (time : Str) : List Arg :=
  [Arg.str cfg.project_name, Arg.str time]

/-- Method `Logger::header`. -/
def Logger.header (host : Host) (cfg : Config) (clock : Str) (L : Logger) :
    Except Fault Logger :=
  let L := (Logger.currentDate clock L).2
  ILogger.log host headerFormat (headerArgs cfg L.m_buffer_time) L

/-- Method `Logger::footer`. -/
def Logger.footer (host : Host) (cfg : Config) (clock : Str) (L : Logger) :
    Except Fault Logger :=
  let L := (Logger.currentTime clock L).2
  ILogger.log host footerFormat (footerArgs cfg L.m_buffer_time) L

/-- The file `Logger::open` hands to `m_file.open`: a name without a directory
part is put under `config::tmp_path`. -/
def resolve (host : Host) (cfg : Config) (logfile : Str) : Str :=
  if (host.dirName logfile).isEmpty then cstr (cfg.tmp_path ++ logfile) else cstr logfile

/-- The directory `Logger::open` hands to `File::mkdir`. -/
def resolveDir (host : Host) (cfg : Config) (logfile : Str) : Str :=
  if (host.dirName logfile).isEmpty then cfg.tmp_path else host.dirName logfile

/-- Method `Logger::open`; the messages on `std::cerr` and `std::cout` are not kept. -/
def Logger.open (host : Host) (cfg : Config) (logfile : Str) (clock : Str) (L : Logger) :
    Except Fault (Bool × Logger) :=
  if !host.mkdir (resolveDir host cfg logfile) then .ok (false, L)
  else
    let L := Logger.fileOpen host (resolve host cfg logfile) L
    if !L.m_file.is_open then .ok (false, L)
    else
      match Logger.header host cfg clock L with
      | .ok L => .ok (true, L)
      | .error e => .error e

/-- Method `Logger::close`; `m_file.close()` flushes and drops the association. -/
def Logger.close (host : Host) (cfg : Config) (clock : Str) (L : Logger) :
    Except Fault Logger :=
  if !L.m_file.is_open then .ok L
  else
    match Logger.footer host cfg clock L with
    | .ok L => .ok { L with m_file := { L.m_file with path := none } }
    | .error e => .error e

/-- Method `Logger::changeLog(std::string const&)`; `closeClock` and `openClock`
are the wall clock readings of the footer and of the new header. -/
def Logger.changeLog (host : Host) (cfg : Config) (logfile : Str)
    (closeClock openClock : Str) (L : Logger) : Except Fault (Bool × Logger) :=
  match Logger.close host cfg closeClock L with
  | .ok L => Logger.open host cfg logfile openClock L
  | .error e => .error e

/-- Constructor `Logger::Logger(std::string const& filename)`. -/
def Logger.construct (host : Host) (cfg : Config) (buffer_size : Nat)
    (disk : Str → Option Str) (mirror : Option Str) (filename : Str) (clock : Str) :
    Except Fault Logger :=
  match Logger.open host cfg filename clock (ILogger.init buffer_size disk mirror) with
  | .ok r => .ok r.2
  | .error e => .error e

/-- Destructor `Logger::~Logger`. -/
def Logger.destroy (host : Host) (cfg : Config) (clock : Str) (L : Logger) :
    Except Fault Logger :=
  Logger.close host cfg clock L

/-! ## The call chains of Logger.hpp 164-190 -/

/-- The chain `LOG_INSTANCE_FORMAT_LN(sev, format, ...)`; `function` and `line`
stand for `__func__` and `__LINE__`. -/
def LOG_INSTANCE_FORMAT_LN (host : Host) (clock : Str) (sev : Severity)
    (function : Str) (line : Int) (format : Str) (args : List Arg) (L : Logger) :
    Except Fault Logger := do
  let L ← ILogger.lock L
  let L := ILogger.time clock L
  let L ← ILogger.severity sev L
  let L ← ILogger.funcline host function line L
  let L ← ILogger.log host format args L
  let L := ILogger.eol host L
  ILogger.unlock L

/-! ## Vocabulary of the statements -/

/-- The text without its last character when that character is a newline. -/
def dropNewline (t : Str) : Str := if t.getLast? = some '\n' then t.dropLast else t

/-- The observable difference between `L` and `L'` is one call of `write` that
hands over `text`: the call is recorded with the state of the mutex, `text` is
appended to the mirror when there is one and to the file when one is open in a
good state, and neither the mutex, nor the stream, nor any other file changes. -/
def Logger.wrote (L L' : Logger) (text : Str) : Prop :=
  L'.trace = L.trace ++ [Event.write L.m_mutex text] ∧
  L'.m_stream = L.m_stream.map (fun out => out ++ text) ∧
  L'.m_mutex = L.m_mutex ∧
  L'.m_file = L.m_file ∧
  L'.disk = (match L.m_file.path with
    | some p =>
      if L.m_file.failbit then L.disk
      else fun q => if q = p then some ((L.disk p).getD [] ++ text) else L.disk q
    | none => L.disk)

/-- Between `L` and `L'` the sink received `text` and nothing else: it was
appended to the mirror when there is one and to the file when one is open in a
good state; the stream and every other file are as before. -/
def Logger.sinkGot (L L' : Logger) (text : Str) : Prop :=
  L'.m_stream = L.m_stream.map (fun out => out ++ text) ∧
  L'.m_file = L.m_file ∧
  L'.disk = (match L.m_file.path with
    | some p =>
      if L.m_file.failbit then L.disk
      else fun q => if q = p then some ((L.disk p).getD [] ++ text) else L.disk q
    | none => L.disk)

/-- Texts joined by a delimiter: the delimiter stands between consecutive texts
and not after the last one. -/
def joinedBy (del : Str) : List Str → Str
  | [] => []
  | [t] => t
  | t :: u :: ts => t ++ del ++ joinedBy del (u :: ts)

/-- Texts each followed by the delimiter. -/
def eachFollowedBy (del : Str) : List Str → Str
  | [] => []
  | t :: ts => t ++ del ++ eachFollowedBy del ts

/-- The texts of a list of values, when every value reads the member it stored. -/
def renderAll (host : Host) : List Value → Option (List Str)
  | [] => some []
  | v :: vs =>
    match v.render host, renderAll host vs with
    | some t, some ts => some (t :: ts)
    | _, _ => none

/-- The text `Logger::header` renders for a wall clock reading. -/
def headerRendering (cfg : Config) (clock : Str) : Str :=
  (vformat headerFormat (headerArgs cfg (timeAndDateFormat clock))).getD []

/-- The text `Logger::footer` renders for a wall clock reading. -/
def footerRendering (cfg : Config) (clock : Str) : Str :=
  (vformat footerFormat (footerArgs cfg (timeAndDateFormat clock))).getD []

/-! ## Sequences of public operations -/

/-- A call of a public operation of the logger, with its arguments and the wall
clock readings it takes. -/
inductive Op
  | lock
  | unlock
  | time (clock : Str)
  | severity (sev : Severity)
  | funcline (function : Str) (line : Int)
  | log (format : Str) (args : List Arg)
  | logList (list : List Value) (del : Str)
  | eol
  | insert (data : Str)
  | insertSeverity (sev : Severity)
  | insertCStr (msg : Str)
  | endl
  | changeLog (logfile closeClock openClock : Str)
  | destroy (clock : Str)

/-- One call. -/
def step (host : Host) (cfg : Config) : Op → Logger → Except Fault Logger
  | .lock, L => ILogger.lock L
  | .unlock, L => ILogger.unlock L
  | .time clock, L => .ok (ILogger.time clock L)
  | .severity sev, L => ILogger.severity sev L
  | .funcline function line, L => ILogger.funcline host function line L
  | .log format args, L => ILogger.log host format args L
  | .logList list del, L => ILogger.logList host list del L
  | .eol, L => .ok (ILogger.eol host L)
  | .insert data, L => .ok (ILogger.insert data L)
  | .insertSeverity sev, L => Logger.insertSeverity sev L
  | .insertCStr msg, L => .ok (Logger.insertCStr msg L)
  | .endl, L => ILogger.endl host L
  | .changeLog logfile closeClock openClock, L =>
    match Logger.changeLog host cfg logfile closeClock openClock L with
    | .ok r => .ok r.2
    | .error e => .error e
  | .destroy clock, L => Logger.destroy host cfg clock L

/-- A sequence of calls, one after the other; it stops at the first call that
runs into a fault, with the state before that call. -/
def run (host : Host) (cfg : Config) : List Op → Logger → Logger × Option Fault
  | [], L => (L, none)
  | op :: rest, L =>
    match step host cfg op L with
    | .ok L' => run host cfg rest L'
    | .error e => (L, some e)

/-- Whether an event is a call of `write` made while the mutex was free. -/
def Event.lockFreeWrite : Event → Bool
  | .write false _ => true
  | _ => false

/-- Whether an operation is one of the fragment writers of a chain: `time`,
`severity`, `funcline`, the two `log`, `eol` and the stream insertions other than
the one of `std::endl`. -/
def Op.writesFragment : Op → Bool
  | .time _ | .severity _ | .funcline _ _ | .log _ _ | .logList _ _ | .eol
  | .insert _ | .insertSeverity _ | .insertCStr _ => true
  | _ => false

/-- Whether a sequence keeps the discipline of the chains, from a state in which
the mutex is held or not: `lock` only when it is free, `unlock` only when it is
held, and fragment writers only while it is held. -/
def inChains : Bool → List Op → Bool
  | _, [] => true
  | held, op :: rest =>
    match op with
    | .lock => !held && inChains true rest
    | .unlock => held && inChains false rest
    | _ => held && op.writesFragment && inChains held rest

/-! ## Concurrent callers of one logger -/

/-- Whether an operation is `lock`. -/
def Op.isLock : Op → Bool
  | .lock => true
  | _ => false

/-- Whether a sequence of calls is made of complete chains, from a state in which
the caller holds the mutex or not: each chain is a `lock`, fragment writers, and
an `unlock`, and the sequence does not end inside a chain. -/
def completeChains : Bool → List Op → Bool
  | held, [] => !held
  | held, op :: rest =>
    match op with
    | .lock => !held && completeChains true rest
    | .unlock => held && completeChains false rest
    | _ => held && op.writesFragment && completeChains held rest

/-- Callers that share one logger: the logger, the calls each caller has still to
make (a caller is named by its position in the list), the events so far, each
with the caller that made it, and whether a call has run into a fault. -/
structure Shared where
  logger : Logger
  programs : List (List Op)
  events : List (Nat × Event)
  halted : Bool

/-- The callers before any of them has made a call. -/
def Shared.start (L : Logger) (programs : List (List Op)) : Shared :=
  { logger := L, programs := programs, events := [], halted := false }

/-- Caller `i` gets the processor for its next call, which is made by `step` on
the shared logger.  A `lock` on a held mutex waits: nothing changes, and the call
is tried again at the next turn of the caller.  The events of the call are the
ones `step` added to the trace.  After a call that ran into a fault nothing is
defined any more, and no caller goes on. -/
def turn (host : Host) (cfg : Config) (i : Nat) (s : Shared) : Shared :=
  if s.halted then s
  else
    match s.programs[i]? with
    | none => s
    | some [] => s
    | some (op :: rest) =>
      if op.isLock && s.logger.m_mutex then s
      else
        match step host cfg op s.logger with
        | .ok L' =>
          { logger := L'
            programs := s.programs.set i rest
            events := s.events
              ++ (L'.trace.drop s.logger.trace.length).map (fun e => (i, e))
            halted := false }
        | .error _ => { s with halted := true }

/-- The callers take turns in the given order. -/
def schedule (host : Host) (cfg : Config) : List Nat → Shared → Shared
  | [], s => s
  | i :: order, s => schedule host cfg order (turn host cfg i s)

/-- The caller that holds the mutex after an event, given the one that held it
before: the mutex is granted to a caller when it is free, the holder writes while
the mutex is held, and the holder releases it.  Any other event breaks the order
of the chains: a write by a caller that is not the holder or with the mutex free,
a grant while the mutex is held, an unlock by a caller that is not the holder. -/
def ownerNext : Option Nat → Nat × Event → Option (Option Nat)
  | none, (i, .lock) => some (some i)
  | some o, (i, .write true _) => if i = o then some (some o) else none
  | some o, (i, .unlock) => if i = o then some none else none
  | _, _ => none

/-- The caller that holds the mutex after a sequence of events; `none` when an
event breaks the order of the chains. -/
def ownerAfter : Option Nat → List (Nat × Event) → Option (Option Nat)
  | o, [] => some o
  | o, e :: rest =>
    match ownerNext o e with
    | some o' => ownerAfter o' rest
    | none => none

/-- Whether the events are chains one after the other: each chain starts with the
grant of the mutex to a caller, goes on with writes of that caller only, and ends
with the unlock of that caller; the chains stand in the order of the grants, no
event lies outside a chain, and only the last chain may be unfinished. -/
def serial (events : List (Nat × Event)) : Bool := (ownerAfter none events).isSome

/-- The text an event hands to the sink: the message of a call of `write`, and
nothing for an operation on the mutex. -/
def Event.text : Event → Str
  | .write _ message => message
  | _ => []

/-- The texts of the events, one after the other: what the sink receives from
them. -/
def sinkText : List (Nat × Event) → Str
  | [] => []
  | e :: rest => e.2.text ++ sinkText rest

/-- What holds of the callers while `o` is the caller that holds the mutex, if
any: the mutex of the logger is held exactly then; the calls the holder has still
to make go on and finish its chain, and the calls of every other caller are
complete chains; the events so far are chains in order, after which `o` holds the
mutex; the events are what the trace of the logger gained since `L0`; and the
sink, the mirror and the file that is open in a good state, gained the texts of
the events, in their order. -/
def Shared.inv (L0 : Logger) (o : Option Nat) (s : Shared) : Prop :=
  s.logger.m_mutex = o.isSome ∧
  (∀ i p, s.programs[i]? = some p → completeChains (decide (o = some i)) p = true) ∧
  ownerAfter none s.events = some o ∧
  s.logger.trace = L0.trace ++ s.events.map Prod.snd ∧
  s.logger.m_file = L0.m_file ∧
  s.logger.m_stream = L0.m_stream.map (fun out => out ++ sinkText s.events) ∧
  (∀ p, L0.m_file = ⟨some p, false⟩ →
    (s.logger.disk p).getD [] = (L0.disk p).getD [] ++ sinkText s.events)

/-- The header block in the words of the file format: the delimiter line, the
line `<project> <Debug|Release> <major>.<minor> - Event log - <timestamp>`, the
line `git branch: <branch>`, the line `git SHA1: <sha>`, the delimiter line and a
blank line. -/
def specHeaderBlock (project : Str) (debug : Bool) (major minor : Nat)
    (timestamp branch sha : Str) : Str :=
  delimiter ++ "\n".toList
    ++ project ++ " ".toList ++ (if debug then "Debug".toList else "Release".toList)
    ++ " ".toList ++ Nat.toDigits 10 major ++ ".".toList ++ Nat.toDigits 10 minor
    ++ " - Event log - ".toList ++ timestamp ++ "\n".toList
    ++ "git branch: ".toList ++ branch ++ "\n".toList
    ++ "git SHA1: ".toList ++ sha ++ "\n".toList
    ++ delimiter ++ "\n".toList
    ++ "\n".toList

/-! ## Inputs of the examples -/

/-- The host used in the examples: lines end with a newline, the call-site tag
is rendered by the format `[%s::%d] `, a path has no directory part, and every
directory and file can be created.  Of the formats outside the fragment of
`vformat` the examples use `%5.2f` with the `double` 2.5, which the C library
renders as ` 2.50`. -/
def exampleHost : Host :=
  { showFloat := fun _ => "0".toList
    showDouble := fun _ => "2.5".toList
    dirName := fun _ => []
    mkdir := fun _ => true
    canCreate := fun _ => true
    funclineFormat := "[%s::%d] ".toList
    endOfLine := "\n".toList
    renderOther := fun format args =>
      if cstr format = "%5.2f".toList ∧ args = [Arg.double 0x4004000000000000]
      then " 2.50".toList else [] }

/-- The project data used in the examples. -/
def exampleConfig : Config :=
  { debug := true
    project_name := "demo".toList
    major_version := 1
    minor_version := 2
    git_sha1 := "c9e5b68".toList
    git_branch := "master".toList
    data_path := "/usr/share/demo/data".toList
    tmp_path := "/tmp/".toList
    log_name := "demo.log".toList
    log_path := "/tmp/demo.log".toList }

/-- The logger a call returned, or `L` when it ran into a fault. -/
def stateOr {α : Type} (L : Logger) (proj : α → Logger) : Except Fault α → Logger
  | .ok r => proj r
  | .error _ => L

/-- A new logger with the default buffer, no mirror and no file on the disk. -/
def exampleLogger : Logger := ILogger.init 1024 (fun _ => none) none

/-- A disk on which `/tmp/b.log` already holds a text. -/
def exampleDisk : Str → Option Str :=
  fun q => if q = "/tmp/b.log".toList then some "old content".toList else none

/-- A new logger with the default buffer and a mirror that has received nothing. -/
def mirroredLogger : Logger := ILogger.init 1024 (fun _ => none) (some [])

/-- A host like `exampleHost` on which no directory can be created. -/
def refusingHost : Host := { exampleHost with mkdir := fun _ => false }

/-- A new logger with the default buffer and no mirror, on `exampleDisk`. -/
def diskLogger : Logger := ILogger.init 1024 exampleDisk none

/-- The logger `diskLogger` after it opened `a.log`. -/
def openedLogger : Logger :=
  stateOr diskLogger Prod.snd
    (Logger.open exampleHost exampleConfig "a.log".toList "2018-01-01".toList diskLogger)

/-- The logger `openedLogger` after it wrote `hello` and was redirected to `b.log`. -/
def changedLogger : Logger :=
  stateOr diskLogger Prod.snd
    (Logger.changeLog exampleHost exampleConfig "b.log".toList "12:00:00".toList
      "2018-01-02".toList (Logger.write "hello".toList openedLogger))

/-- The calls of `LOG_INSTANCE_FORMAT_LN(Info, "%s=%d", "x", 42)` in `main`, line 42. -/
def exampleChain : List Op :=
  [Op.lock, Op.time "12:00:00".toList, Op.severity Severity.Info,
   Op.funcline "main".toList 42, Op.log "%s=%d".toList [Arg.str "x".toList, Arg.int 42],
   Op.eol, Op.unlock]

/-- The logger `openedLogger` after it wrote `hello` and was redirected to
`a.log`, the file it had open. -/
def reopenedLogger : Logger :=
  stateOr diskLogger Prod.snd
    (Logger.changeLog exampleHost exampleConfig "a.log".toList "12:00:00".toList
      "2018-01-02".toList (Logger.write "hello".toList openedLogger))

/-- The logger `exampleLogger` after it opened `demo.log`. -/
def demoLogger : Logger :=
  stateOr exampleLogger Prod.snd
    (Logger.open exampleHost exampleConfig "demo.log".toList "2018-01-01".toList exampleLogger)

/-- The text the file `/tmp/demo.log` holds once `demoLogger` has opened it. -/
def demoHeader : Str :=
  delimiter ++ ("\n  demo Debug 1.2 - Event log - 2018-01-01\n  git branch: master"
    ++ "\n  git SHA1: c9e5b68\n").toList ++ delimiter ++ "\n".toList

/-- The calls of `LOG_INSTANCE_FORMAT_LN(Error, "%u", 7u)` in `run`, line 7. -/
def otherChain : List Op :=
  [Op.lock, Op.time "12:00:01".toList, Op.severity Severity.Error,
   Op.funcline "run".toList 7, Op.log "%u".toList [Arg.uint 7], Op.eol, Op.unlock]

/-- Two callers: the first makes the calls of `exampleChain` twice, the second
those of `otherChain`. -/
def examplePrograms : List (List Op) := [exampleChain ++ exampleChain, otherChain]

/-- An order of the turns in which each caller asks for the mutex while the other
holds it, and gets turns between the calls of the holder. -/
def exampleOrder : List Nat :=
  [0, 1, 0, 0, 1, 0, 0, 1, 0, 0, 1, 0, 1, 1, 0, 1, 1, 1, 0, 1, 0, 0, 0, 0, 0, 0, 0]

/-- The calls of `LOG_INSTANCE_FORMAT_LN(Info, "%s", s)` in `main`, line 42, for
a string `s` of 1030 characters. -/
def overflowChain : List Op :=
  [Op.lock, Op.time "12:00:00".toList, Op.severity Severity.Info,
   Op.funcline "main".toList 42, Op.log "%s".toList [Arg.str (List.replicate 1030 'a')],
   Op.eol, Op.unlock]

/-- The calls of `LOG_INSTANCE(Info) << "x" << std::endl` in `main`, line 42: the
chain ends with the operator of `std::endl`, not with `unlock`. -/
def endlChain : List Op :=
  [Op.lock, Op.time "12:00:00".toList, Op.severity Severity.Info,
   Op.funcline "main".toList 42, Op.insert "x".toList, Op.endl]

/-! # Theorems -/

/-! ## C strings and rendered texts -/

theorem cstr_mem_ne (p : Str) : ∀ c ∈ cstr p, c ≠ NUL := by
  intro c hc
  have := List.mem_takeWhile_imp hc
  simpa using this

theorem cstr_append_nul (t r : Str) (h : ∀ c ∈ t, c ≠ NUL) : cstr (t ++ NUL :: r) = t := by
  induction t with
  | nil => simp [cstr, List.takeWhile]
  | cons a t ih =>
    have ha : (a != NUL) = true := by simpa using h a (by simp)
    have := ih (fun c hc => h c (by simp [hc]))
    unfold cstr at this ⊢
    rw [List.cons_append, List.takeWhile_cons, if_pos ha, this]

theorem cstr_of_nul_free (t : Str) (h : ∀ c ∈ t, c ≠ NUL) : cstr t = t := by
  induction t with
  | nil => simp [cstr]
  | cons a t ih =>
    have ha : (a != NUL) = true := by simpa using h a (by simp)
    have := ih (fun c hc => h c (by simp [hc]))
    unfold cstr at this ⊢
    rw [List.takeWhile_cons, if_pos ha, this]

theorem digitChar_ne_nul (n : Nat) (h : n < 10) : Nat.digitChar n ≠ NUL := by
  interval_cases n <;> decide

theorem toDigitsCore_ne_nul (fuel n : Nat) (acc : List Char) (h : ∀ c ∈ acc, c ≠ NUL) :
    ∀ c ∈ Nat.toDigitsCore 10 fuel n acc, c ≠ NUL := by
  induction fuel generalizing n acc with
  | zero => simpa [Nat.toDigitsCore] using h
  | succ k ih =>
    unfold Nat.toDigitsCore
    have hacc : ∀ c ∈ Nat.digitChar (n % 10) :: acc, c ≠ NUL := by
      intro c hc
      rcases List.mem_cons.1 hc with rfl | hc
      · exact digitChar_ne_nul _ (Nat.mod_lt _ (by decide))
      · exact h c hc
    simp only []
    split
    · exact hacc
    · exact ih _ _ hacc

theorem toDigits_ne_nul (n : Nat) : ∀ c ∈ Nat.toDigits 10 n, c ≠ NUL := by
  unfold Nat.toDigits
  exact toDigitsCore_ne_nul _ _ _ (by simp)

theorem decimal_ne_nul (v : Int) : ∀ c ∈ decimal v, c ≠ NUL := by
  intro c hc
  unfold decimal at hc
  split at hc
  · rcases List.mem_cons.1 hc with rfl | hc
    · decide
    · exact toDigits_ne_nul _ c hc
  · exact toDigits_ne_nul _ c hc

theorem vformat_lit (c : Char) (rest : Str) (args : List Arg) (h0 : c ≠ NUL) (h1 : c ≠ '%') :
    vformat (c :: rest) args = (vformat rest args).map (fun t => c :: t) := by
  conv_lhs => unfold vformat
  simp [h0, h1]

theorem vformat_s (rest p : Str) (args : List Arg) :
    vformat ('%' :: 's' :: rest) (Arg.str p :: args)
      = (vformat rest args).map (fun t => cstr p ++ t) := by
  conv_lhs => unfold vformat
  simp [NUL]

theorem vformat_d (rest : Str) (v : Int) (args : List Arg) :
    vformat ('%' :: 'd' :: rest) (Arg.int v :: args)
      = (vformat rest args).map (fun t => decimal v ++ t) := by
  conv_lhs => unfold vformat
  simp [NUL]

theorem vformat_u (rest : Str) (v : Nat) (args : List Arg) :
    vformat ('%' :: 'u' :: rest) (Arg.uint v :: args)
      = (vformat rest args).map (fun t => Nat.toDigits 10 v ++ t) := by
  conv_lhs => unfold vformat
  simp [NUL]

theorem vformat_percent (rest : Str) (args : List Arg) :
    vformat ('%' :: '%' :: rest) args = (vformat rest args).map (fun t => '%' :: t) := by
  conv_lhs => unfold vformat
  simp [NUL]

theorem vformat_c (rest : Str) (c : Char) (args : List Arg) :
    vformat ('%' :: 'c' :: rest) (Arg.char c :: args)
      = (vformat rest args).map (fun t => c :: t) := by
  conv_lhs => unfold vformat
  simp [NUL]

theorem vformat_ne_nul (format : Str) (args : List Arg) (t : Str)
    (hargs : ∀ c, Arg.char c ∈ args → c ≠ NUL)
    (h : vformat format args = some t) : ∀ c ∈ t, c ≠ NUL := by
  induction format, args using vformat.induct generalizing t with
  | case1 args => unfold vformat at h; simp at h; subst h; simp
  | case2 rest args => unfold vformat at h; simp at h; subst h; simp
  | case3 rest p args _ ih =>
    rw [vformat_s] at h
    obtain ⟨u, hu, rfl⟩ := Option.map_eq_some'.1 h
    intro c hc
    rcases List.mem_append.1 hc with hc | hc
    · exact cstr_mem_ne p c hc
    · exact ih u (fun c hc => hargs c (List.mem_cons_of_mem _ hc)) hu c hc
  | case4 rest v args _ ih =>
    rw [vformat_d] at h
    obtain ⟨u, hu, rfl⟩ := Option.map_eq_some'.1 h
    intro c hc
    rcases List.mem_append.1 hc with hc | hc
    · exact decimal_ne_nul v c hc
    · exact ih u (fun c hc => hargs c (List.mem_cons_of_mem _ hc)) hu c hc
  | case5 rest v args _ ih =>
    rw [vformat_u] at h
    obtain ⟨u, hu, rfl⟩ := Option.map_eq_some'.1 h
    intro c hc
    rcases List.mem_append.1 hc with hc | hc
    · exact toDigits_ne_nul v c hc
    · exact ih u (fun c hc => hargs c (List.mem_cons_of_mem _ hc)) hu c hc
  | case6 rest a args _ ih =>
    rw [vformat_c] at h
    obtain ⟨u, hu, rfl⟩ := Option.map_eq_some'.1 h
    intro c hc
    rcases List.mem_cons.1 hc with rfl | hc
    · exact hargs c (List.mem_cons_self _ _)
    · exact ih u (fun c hc => hargs c (List.mem_cons_of_mem _ hc)) hu c hc
  | case7 rest args _ ih =>
    rw [vformat_percent] at h
    obtain ⟨u, hu, rfl⟩ := Option.map_eq_some'.1 h
    intro c hc
    rcases List.mem_cons.1 hc with rfl | hc
    · decide
    · exact ih u hargs hu c hc
  | case8 rest args h1 h2 h3 h4 h5 _ =>
    exfalso
    unfold vformat at h
    simp [NUL] at h
  | case9 c rest args h0 h1 ih =>
    rw [vformat_lit c rest args h0 h1] at h
    obtain ⟨u, hu, rfl⟩ := Option.map_eq_some'.1 h
    intro d hd
    rcases List.mem_cons.1 hd with rfl | hd
    · exact h0
    · exact ih u hargs hu d hd

/-! ## The sink -/

theorem wrote_write (L : Logger) (b bt m : Str) :
    Logger.wrote L (Logger.write m { L with m_buffer := b, m_buffer_time := bt }) (cstr m) := by
  unfold Logger.wrote Logger.write Logger.fileInsert OFStream.is_open
  cases hs : L.m_stream <;> cases hp : L.m_file.path <;> cases hf : L.m_file.failbit <;>
    simp [hs, hp, hf]

/-! ## Formatted logging -/

theorem vsnprintf_fits (buf t : Str) (h : t.length < buf.length) :
    vsnprintf buf buf.length t = (t ++ NUL :: buf.drop (t.length + 1), t.length) := by
  unfold vsnprintf
  have h0 : buf.length ≠ 0 := by omega
  have hk : min t.length (buf.length - 1) = t.length := by omega
  simp [h0, hk]

theorem dropNewline_concat (init : Str) (last : Char) :
    dropNewline (init ++ [last]) = if last = '\n' then init else init ++ [last] := by
  unfold dropNewline
  simp

theorem dropNewline_ne_nul (t : Str) (h : ∀ c ∈ t, c ≠ NUL) : ∀ c ∈ dropNewline t, c ≠ NUL := by
  intro c hc
  unfold dropNewline at hc
  split at hc
  · exact h c (List.mem_of_mem_dropLast hc)
  · exact h c hc

theorem logRendered_fits (L : Logger) (t : Str) (hnul : ∀ c ∈ t, c ≠ NUL)
    (hfit : t.length < L.m_buffer.length) :
    ∃ buffer, ILogger.logRendered t L
        = .ok (Logger.write buffer { L with m_buffer := buffer })
      ∧ cstr buffer = dropNewline t ∧ buffer.length = L.m_buffer.length := by
  unfold ILogger.logRendered
  simp only [vsnprintf_fits L.m_buffer t hfit]
  rcases List.eq_nil_or_concat t with rfl | ⟨init, last, rfl⟩
  · refine ⟨_, by simp; rfl, ?_, ?_⟩
    · simp [cstr, dropNewline, NUL]
    · simp at hfit ⊢; omega
  · simp only [List.concat_eq_append] at hfit hnul ⊢
    have hlen : (init ++ [last]).length - 1 = init.length := by simp
    have hget : (init ++ [last] ++ NUL :: List.drop ((init ++ [last]).length + 1) L.m_buffer)[
        (init ++ [last]).length - 1]? = some last := by
      rw [hlen, List.append_assoc, List.getElem?_append_right (le_refl _)]
      simp
    have hpos : 0 < (init ++ [last]).length := by simp
    rw [if_pos hpos]
    simp only [hget]
    refine ⟨_, rfl, ?_, ?_⟩
    · rw [dropNewline_concat]
      by_cases hl : last = '\n'
      · rw [if_pos hl, if_pos hl]
        rw [hlen, List.append_assoc, List.set_append_right _ _ (le_refl _)]
        simp only [Nat.sub_self, List.singleton_append, List.set_cons_zero]
        exact cstr_append_nul _ _ (fun c hc => hnul c (by simp [hc]))
      · rw [if_neg hl, if_neg hl]
        exact cstr_append_nul _ _ hnul
    · by_cases hl : last = '\n'
      · rw [if_pos hl, List.length_set]
        simp at hfit ⊢; omega
      · rw [if_neg hl]
        simp at hfit ⊢; omega

theorem vrender_of_vformat (host : Host) (format : Str) (args : List Arg) (t : Str)
    (hr : vformat format args = some t) : vrender host format args = t := by
  unfold vrender
  rw [hr]

theorem log_eq_logRendered (host : Host) (L : Logger) (format : Str) (args : List Arg) (t : Str)
    (hr : vformat format args = some t) :
    ILogger.log host format args L = ILogger.logRendered t L := by
  unfold ILogger.log
  rw [vrender_of_vformat host format args t hr]

theorem log_of_vrender (host : Host) (L : Logger) (format : Str) (args : List Arg) (t : Str)
    (hr : vrender host format args = t) :
    ILogger.log host format args L = ILogger.logRendered t L := by
  unfold ILogger.log
  rw [hr]

theorem vsnprintf_length (buf t : Str) : (vsnprintf buf buf.length t).1.length = buf.length := by
  unfold vsnprintf
  split
  · rfl
  · simp only [List.length_append, List.length_take, List.length_cons, List.length_drop]
    omega

theorem vsnprintf_bytes (buf t : Str) (size : Nat) : (vsnprintf buf size t).2 = t.length := by
  unfold vsnprintf
  split <;> rfl

theorem logRendered_overflow (L : Logger) (t : Str) (hbig : L.m_buffer.length < t.length) :
    ILogger.logRendered t L = .error .outOfBounds := by
  unfold ILogger.logRendered
  simp only [vsnprintf_bytes]
  have hpos : 0 < t.length := by omega
  rw [if_pos hpos]
  have hnone : (vsnprintf L.m_buffer L.m_buffer.length t).1[t.length - 1]? = none := by
    apply List.getElem?_eq_none
    rw [vsnprintf_length]
    omega
  rw [hnone]

theorem log_overflow (host : Host) (L : Logger) (format : Str) (args : List Arg) (t : Str)
    (hr : vrender host format args = t) (hbig : L.m_buffer.length < t.length) :
    ILogger.log host format args L = .error .outOfBounds := by
  rw [log_of_vrender host L format args t hr]
  exact logRendered_overflow L t hbig

theorem init_buffer_length (n : Nat) (disk : Str → Option Str) (mirror : Option Str) :
    (ILogger.init n disk mirror).m_buffer.length = max 128 n := by
  simp only [ILogger.init, List.length_replicate]

/-! ## Labels, and texts that fit the buffer -/

/-- C2: the label table has one entry per severity, every severity indexes inside
it, and the labels are the ten texts of the specification. -/
theorem severity_label_lookup_total_exact :
    c_str_severity.length = MaxLoggerSeverity + 1 ∧
    (∀ s : Severity, s.toNat < c_str_severity.length ∧
      severityToStr s = c_str_severity[s.toNat]? ∧ (severityToStr s).isSome) ∧
    c_str_severity[Severity.None.toNat]? = some "".toList ∧
    c_str_severity[Severity.Info.toNat]? = some "[INFO]".toList ∧
    c_str_severity[Severity.Debug.toNat]? = some "[DEBUG]".toList ∧
    c_str_severity[Severity.Warning.toNat]? = some "[WARNING]".toList ∧
    c_str_severity[Severity.Failed.toNat]? = some "[FAILURE]".toList ∧
    c_str_severity[Severity.Error.toNat]? = some "[ERROR]".toList ∧
    c_str_severity[Severity.Signal.toNat]? = some "[SIGNAL]".toList ∧
    c_str_severity[Severity.Exception.toNat]? = some "[THROW]".toList ∧
    c_str_severity[Severity.Catch.toNat]? = some "[CATCH]".toList ∧
    c_str_severity[Severity.Fatal.toNat]? = some "[FATAL]".toList := by
  refine ⟨by decide, ?_, by decide, by decide, by decide, by decide, by decide, by decide,
    by decide, by decide, by decide, by decide⟩
  intro s
  cases s <;> exact ⟨by decide, rfl, by decide⟩

/-- C4, as amended: when the rendered text `t` holds no NUL character and is
shorter than the buffer, the statements of `log` return and hand `t` to the sink
in one call of `write`, without the last character of `t` when that is a newline
and unchanged otherwise; the end-of-line marker is what the separate call of
`eol` writes.  This is what `log` does for every format and arguments that render
to `t`, whether the text is computed by `vformat` or given by the C library of
the host. -/
theorem log_writes_rendered_text (host : Host) (L : Logger) (t : Str)
    (hnul : ∀ c ∈ t, c ≠ NUL) (hfit : t.length < L.m_buffer.length) :
    (∃ L', ILogger.logRendered t L = .ok L' ∧
      Logger.wrote L L' (if t.getLast? = some '\n' then t.dropLast else t) ∧
      Logger.wrote L' (ILogger.eol host L') (cstr host.endOfLine)) ∧
    (∀ format args, vformat format args = some t →
      ILogger.log host format args L = ILogger.logRendered t L) ∧
    (∀ format args, vrender host format args = t →
      ILogger.log host format args L = ILogger.logRendered t L) := by
  obtain ⟨buffer, hlog, hc, _⟩ := logRendered_fits L t hnul hfit
  have hw : Logger.wrote L (Logger.write buffer { L with m_buffer := buffer })
      (if t.getLast? = some '\n' then t.dropLast else t) := by
    have := wrote_write L buffer L.m_buffer_time buffer
    rw [hc] at this
    exact this
  exact ⟨⟨_, hlog, hw, wrote_write _ _ _ _⟩,
    fun format args hr => log_eq_logRendered host L format args t hr,
    fun format args hr => log_of_vrender host L format args t hr⟩

/-- C4, at concrete inputs: `"%s=%d"` with `("x", 42)` is written as `x=42`, and
of the two newlines that end the rendering of `"a\n\n"` only the last is removed. -/
theorem log_writes_rendered_text_witness :
    (vformat "%s=%d".toList [Arg.str "x".toList, Arg.int 42] = some "x=42".toList ∧
      ∃ L', ILogger.log exampleHost "%s=%d".toList [Arg.str "x".toList, Arg.int 42]
              (ILogger.init 1024 (fun _ => none) none) = .ok L' ∧
        Logger.wrote (ILogger.init 1024 (fun _ => none) none) L' "x=42".toList ∧
        Logger.wrote L' (ILogger.eol exampleHost L') "\n".toList) ∧
    (vformat "a\n\n".toList [] = some "a\n\n".toList ∧
      ∃ L', ILogger.log exampleHost "a\n\n".toList []
              (ILogger.init 1024 (fun _ => none) none) = .ok L' ∧
        Logger.wrote (ILogger.init 1024 (fun _ => none) none) L' "a\n".toList ∧
        Logger.wrote L' (ILogger.eol exampleHost L') "\n".toList) := by
  have h1 := log_writes_rendered_text exampleHost (ILogger.init 1024 (fun _ => none) none)
    "x=42".toList (by decide) (by rw [init_buffer_length]; decide)
  have h2 := log_writes_rendered_text exampleHost (ILogger.init 1024 (fun _ => none) none)
    "a\n\n".toList (by decide) (by rw [init_buffer_length]; decide)
  have e1 : vformat "%s=%d".toList [Arg.str "x".toList, Arg.int 42] = some "x=42".toList := by
    decide
  have e2 : vformat "a\n\n".toList [] = some "a\n\n".toList := by decide
  obtain ⟨⟨L1, a1, a2, a3⟩, a4, _⟩ := h1
  obtain ⟨⟨L2, b1, b2, b3⟩, b4, _⟩ := h2
  exact ⟨⟨e1, L1, (a4 _ _ e1).trans a1, a2, a3⟩, ⟨e2, L2, (b4 _ _ e2).trans b1, b2, b3⟩⟩

set_option maxRecDepth 100000 in
/-- C4 as stated fails: the format `"a%cb"` with the argument 0 renders the three
characters `a`, NUL, `b`, fewer than the buffer holds and without a newline at
the end, and `log` hands only `a` to the sink. -/
theorem log_cuts_rendered_text_at_nul :
    vformat "a%cb".toList [Arg.char NUL] = some ['a', NUL, 'b'] ∧
    ['a', NUL, 'b'].length < mirroredLogger.m_buffer.length ∧
    ['a', NUL, 'b'].getLast? ≠ some '\n' ∧
    ILogger.log exampleHost "a%cb".toList [Arg.char NUL] mirroredLogger
      = .ok (stateOr mirroredLogger id
          (ILogger.log exampleHost "a%cb".toList [Arg.char NUL] mirroredLogger)) ∧
    (stateOr mirroredLogger id
      (ILogger.log exampleHost "a%cb".toList [Arg.char NUL] mirroredLogger)).trace
        = [Event.write false "a".toList] ∧
    (stateOr mirroredLogger id
      (ILogger.log exampleHost "a%cb".toList [Arg.char NUL] mirroredLogger)).m_stream
        = some "a".toList ∧
    "a".toList ≠ ['a', NUL, 'b'] :=
  ⟨by decide, by decide, by decide, rfl, by decide, by decide, by decide⟩

/-! ## Header and footer -/

theorem vformat_literal (lit rest : Str) (args : List Arg)
    (h : ∀ c ∈ lit, c ≠ NUL ∧ c ≠ '%') :
    vformat (lit ++ rest) args = (vformat rest args).map (fun t => lit ++ t) := by
  induction lit with
  | nil => simp
  | cons a lit ih =>
    have ha := h a (by simp)
    rw [List.cons_append, vformat_lit a _ args ha.1 ha.2, ih (fun c hc => h c (by simp [hc]))]
    rw [Option.map_map]
    rfl

theorem vformat_nil (args : List Arg) : vformat [] args = some [] := by
  unfold vformat
  rfl

theorem delimiter_literal : ∀ c ∈ delimiter, c ≠ NUL ∧ c ≠ '%' := by
  intro c hc
  rw [delimiter, List.mem_replicate] at hc
  rw [hc.2]
  decide

theorem header_rendering (cfg : Config) (time : Str) :
    vformat headerFormat (headerArgs cfg time) = some
      (delimiter ++ "\n  ".toList ++ cstr cfg.project_name ++ " ".toList
        ++ (if cfg.debug then "Debug".toList else "Release".toList) ++ " ".toList
        ++ Nat.toDigits 10 cfg.major_version ++ ".".toList
        ++ Nat.toDigits 10 cfg.minor_version ++ " - Event log - ".toList ++ cstr time
        ++ "\n  git branch: ".toList ++ cstr cfg.git_branch
        ++ "\n  git SHA1: ".toList ++ cstr cfg.git_sha1 ++ "\n".toList
        ++ delimiter ++ "\n\n".toList) := by
  have hfmt : headerFormat = (delimiter ++ "\n  ".toList) ++ '%' :: 's' :: (" ".toList ++
      '%' :: 's' :: (" ".toList ++ '%' :: 'u' :: (".".toList ++ '%' :: 'u' ::
      (" - Event log - ".toList ++ '%' :: 's' :: ("\n  git branch: ".toList ++ '%' :: 's' ::
      ("\n  git SHA1: ".toList ++ '%' :: 's' ::
      (("\n".toList ++ delimiter ++ "\n\n".toList) ++ []))))))) := by rfl
  rw [hfmt, headerArgs]
  rw [vformat_literal _ _ _ (by decide), vformat_s, vformat_literal _ _ _ (by decide), vformat_s,
    vformat_literal _ _ _ (by decide), vformat_u, vformat_literal _ _ _ (by decide), vformat_u,
    vformat_literal _ _ _ (by decide), vformat_s, vformat_literal _ _ _ (by decide), vformat_s,
    vformat_literal _ _ _ (by decide), vformat_s, vformat_literal _ _ _ (by decide), vformat_nil]
  have hmode : cstr (if cfg.debug = true then "Debug".toList else "Release".toList)
      = (if cfg.debug = true then "Debug".toList else "Release".toList) := by
    cases cfg.debug <;> decide
  simp only [Option.map_some', List.append_assoc, List.append_nil, hmode]

theorem footer_rendering (cfg : Config) (time : Str) :
    vformat footerFormat (footerArgs cfg time) = some
      ("\n".toList ++ delimiter ++ "\n  ".toList ++ cstr cfg.project_name
        ++ " log closed at ".toList ++ cstr time ++ "\n".toList
        ++ delimiter ++ "\n\n".toList) := by
  have hfmt : footerFormat = ("\n".toList ++ delimiter ++ "\n  ".toList) ++ '%' :: 's' ::
      (" log closed at ".toList ++ '%' :: 's' ::
      (("\n".toList ++ delimiter ++ "\n\n".toList) ++ [])) := by rfl
  rw [hfmt, footerArgs]
  rw [vformat_literal _ _ _ (by decide), vformat_s, vformat_literal _ _ _ (by decide), vformat_s,
    vformat_literal _ _ _ (by decide), vformat_nil]
  simp only [Option.map_some', List.append_assoc, List.append_nil]

/-! ## Logging a list of values -/

theorem put_at_end (os : OStringStream) (t : Str) (hf : os.failbit = false)
    (hp : os.pos = os.buf.length) :
    os.put t = ⟨os.buf ++ t, os.buf.length + t.length, false⟩ := by
  unfold OStringStream.put
  simp [hf, hp]

theorem insertAll_at_end (host : Host) (del : Str) (vs : List Value) :
    ∀ (os : OStringStream) (ts : List Str), os.failbit = false → os.pos = os.buf.length →
      renderAll host vs = some ts →
      ∃ os', insertAll host del vs os = some os' ∧ os'.failbit = false ∧
        os'.buf = os.buf ++ eachFollowedBy (cstr del) ts := by
  induction vs with
  | nil =>
    intro os ts hf _ hr
    simp [renderAll] at hr
    subst hr
    exact ⟨os, rfl, hf, by simp [eachFollowedBy]⟩
  | cons v vs ih =>
    intro os ts hf hp hr
    unfold renderAll at hr
    cases hv : v.render host with
    | none => simp [hv] at hr
    | some t =>
      cases hvs : renderAll host vs with
      | none => simp [hv, hvs] at hr
      | some ts' =>
        simp [hv, hvs] at hr
        subst hr
        unfold insertAll
        simp only [hv]
        rw [put_at_end os t hf hp, put_at_end _ (cstr del) rfl (by simp)]
        obtain ⟨os', h1, h2, h3⟩ := ih ⟨os.buf ++ t ++ cstr del,
          (os.buf ++ t).length + (cstr del).length, false⟩ ts' rfl
          (by simp [Nat.add_assoc]) hvs
        exact ⟨os', h1, h2, by rw [h3]; simp [eachFollowedBy]⟩

theorem seekpEnd_str (os : OStringStream) (off : Int) : (os.seekpEnd off).str = os.buf := by
  unfold OStringStream.seekpEnd OStringStream.str
  split
  · rfl
  · dsimp only
    split <;> rfl

theorem logList_writes (host : Host) (vs : List Value) (del : Str) (ts : List Str) (L : Logger)
    (hr : renderAll host vs = some ts) :
    ILogger.logList host vs del L = .ok (Logger.write (eachFollowedBy (cstr del) ts) L) := by
  obtain ⟨os', h1, _, h3⟩ := insertAll_at_end host del vs OStringStream.empty ts rfl rfl hr
  unfold ILogger.logList
  simp only [h1, seekpEnd_str, h3]
  simp [OStringStream.empty]

theorem eachFollowedBy_eq_joinedBy (del : Str) (t : Str) (ts : List Str) :
    eachFollowedBy del (t :: ts) = joinedBy del (t :: ts) ++ del := by
  induction ts generalizing t with
  | nil => simp [eachFollowedBy, joinedBy]
  | cons u us ih =>
    rw [eachFollowedBy, ih u, joinedBy]
    simp

/-- C3, at the failing input of the claim: for the list `[1, 2.5, "ok"]` and the
delimiter `","` the call returns and hands `1,2.5,ok,` to the sink, the joined
text `1,2.5,ok` followed by one more delimiter. -/
theorem logList_keeps_last_delimiter (L : Logger) :
    joinedBy ",".toList ["1".toList, "2.5".toList, "ok".toList] = "1,2.5,ok".toList ∧
    ∃ L', ILogger.logList exampleHost
        [Value.ofInt 1, Value.ofDouble 0x4004000000000000, Value.ofString "ok".toList]
        ",".toList L = .ok L' ∧
      Logger.wrote L L' "1,2.5,ok,".toList ∧ ¬ Logger.wrote L L' "1,2.5,ok".toList := by
  refine ⟨by decide, _, logList_writes exampleHost _ ",".toList
    ["1".toList, "2.5".toList, "ok".toList] L (by decide), ?_, ?_⟩
  · exact wrote_write L L.m_buffer L.m_buffer_time _
  · intro h
    have h1 := (wrote_write L L.m_buffer L.m_buffer_time
      (eachFollowedBy (cstr ",".toList) ["1".toList, "2.5".toList, "ok".toList])).1
    have h2 := h.1
    have h3 := h1.symm.trans h2
    simp at h3
    revert h3
    decide

/-! ## Steps of a chain -/

theorem wrote_sinkGot (L L' : Logger) (t : Str) (h : Logger.wrote L L' t) :
    Logger.sinkGot L L' t :=
  ⟨h.2.1, h.2.2.2.1, h.2.2.2.2⟩

theorem sinkGot_congr_left (K L L' : Logger) (t : Str) (h1 : L.m_stream = K.m_stream)
    (h2 : L.m_file = K.m_file) (h3 : L.disk = K.disk) (h : Logger.sinkGot K L' t) :
    Logger.sinkGot L L' t := by
  unfold Logger.sinkGot at h ⊢
  rw [h1, h2, h3]
  exact h

theorem sinkGot_congr_right (L K' L' : Logger) (t : Str) (h1 : L'.m_stream = K'.m_stream)
    (h2 : L'.m_file = K'.m_file) (h3 : L'.disk = K'.disk) (h : Logger.sinkGot L K' t) :
    Logger.sinkGot L L' t := by
  unfold Logger.sinkGot at h ⊢
  rw [h1, h2, h3]
  exact h

theorem sinkGot_trans (L L1 L2 : Logger) (a b : Str) (h1 : Logger.sinkGot L L1 a)
    (h2 : Logger.sinkGot L1 L2 b) : Logger.sinkGot L L2 (a ++ b) := by
  obtain ⟨s1, f1, d1⟩ := h1
  obtain ⟨s2, f2, d2⟩ := h2
  refine ⟨?_, f2.trans f1, ?_⟩
  · rw [s2, s1]
    cases L.m_stream <;> simp
  · rw [d2, f1, d1]
    cases hp : L.m_file.path with
    | none => rfl
    | some p =>
      cases hf : L.m_file.failbit with
      | true => simp
      | false =>
        simp only [Bool.false_eq_true, if_false, if_true]
        funext q
        by_cases hq : q = p
        · simp [hq]
        · simp [hq]

theorem write_m_buffer (m : Str) (L : Logger) : (Logger.write m L).m_buffer = L.m_buffer := by
  unfold Logger.write Logger.fileInsert OFStream.is_open
  cases hs : L.m_stream <;> cases hp : L.m_file.path <;> cases hf : L.m_file.failbit <;>
    simp [hs, hp, hf]

theorem timeAndDateFormat_cstr (clock : Str) :
    cstr (timeAndDateFormat clock) = timeAndDateFormat clock := by
  apply cstr_of_nul_free
  intro c hc
  exact cstr_mem_ne clock c (List.mem_of_mem_take hc)

theorem time_wrote (clock : Str) (L : Logger) :
    Logger.wrote L (ILogger.time clock L) (timeAndDateFormat clock) ∧
      (ILogger.time clock L).m_buffer = L.m_buffer := by
  unfold ILogger.time Logger.currentTime
  refine ⟨?_, ?_⟩
  · have := wrote_write L L.m_buffer (timeAndDateFormat clock) (timeAndDateFormat clock)
    rw [timeAndDateFormat_cstr] at this
    exact this
  · rw [write_m_buffer]

theorem severityToStr_some (sev : Severity) :
    ∃ label, severityToStr sev = some label ∧ cstr label = label := by
  cases sev <;> exact ⟨_, rfl, by decide⟩

theorem severity_wrote (sev : Severity) (L : Logger) :
    ∃ label L', severityToStr sev = some label ∧ ILogger.severity sev L = .ok L' ∧
      Logger.wrote L L' label ∧ L'.m_buffer = L.m_buffer := by
  obtain ⟨label, h1, h2⟩ := severityToStr_some sev
  refine ⟨label, Logger.write label L, h1, by simp [ILogger.severity, h1], ?_, write_m_buffer _ _⟩
  have := wrote_write L L.m_buffer L.m_buffer_time label
  rw [h2] at this
  exact this

theorem eol_wrote (host : Host) (L : Logger) :
    Logger.wrote L (ILogger.eol host L) (cstr host.endOfLine) ∧
      (ILogger.eol host L).m_buffer = L.m_buffer :=
  ⟨wrote_write L L.m_buffer L.m_buffer_time _, write_m_buffer _ _⟩

theorem log_wrote (host : Host) (L : Logger) (format : Str) (args : List Arg) (t : Str)
    (hr : vrender host format args = t) (hnul : ∀ c ∈ t, c ≠ NUL)
    (hfit : t.length < L.m_buffer.length) :
    ∃ L', ILogger.log host format args L = .ok L' ∧ Logger.wrote L L' (dropNewline t) ∧
      L'.m_buffer.length = L.m_buffer.length := by
  obtain ⟨buffer, hlog, hc, hl⟩ := logRendered_fits L t hnul hfit
  refine ⟨_, (log_of_vrender host L format args t hr).trans hlog, ?_, ?_⟩
  · have := wrote_write L buffer L.m_buffer_time buffer
    rw [hc] at this
    exact this
  · rw [write_m_buffer]
    exact hl

theorem cstr_append_nul_any (t r : Str) : cstr (t ++ NUL :: r) = cstr t := by
  induction t with
  | nil => simp [cstr, List.takeWhile]
  | cons a t ih =>
    unfold cstr at ih ⊢
    rw [List.cons_append, List.takeWhile_cons, List.takeWhile_cons, ih]

theorem logRendered_fits_any (L : Logger) (t : Str) (hfit : t.length < L.m_buffer.length) :
    ∃ buffer, ILogger.logRendered t L
        = .ok (Logger.write buffer { L with m_buffer := buffer })
      ∧ cstr buffer = cstr (dropNewline t) ∧ buffer.length = L.m_buffer.length := by
  unfold ILogger.logRendered
  simp only [vsnprintf_fits L.m_buffer t hfit]
  rcases List.eq_nil_or_concat t with rfl | ⟨init, last, rfl⟩
  · refine ⟨_, by simp; rfl, ?_, ?_⟩
    · simp [cstr, dropNewline, NUL]
    · simp at hfit ⊢; omega
  · simp only [List.concat_eq_append] at hfit ⊢
    have hlen : (init ++ [last]).length - 1 = init.length := by simp
    have hget : (init ++ [last] ++ NUL :: List.drop ((init ++ [last]).length + 1) L.m_buffer)[
        (init ++ [last]).length - 1]? = some last := by
      rw [hlen, List.append_assoc, List.getElem?_append_right (le_refl _)]
      simp
    have hpos : 0 < (init ++ [last]).length := by simp
    rw [if_pos hpos]
    simp only [hget]
    refine ⟨_, rfl, ?_, ?_⟩
    · rw [dropNewline_concat]
      by_cases hl : last = '\n'
      · rw [if_pos hl, if_pos hl]
        rw [hlen, List.append_assoc, List.set_append_right _ _ (le_refl _)]
        simp only [Nat.sub_self, List.singleton_append, List.set_cons_zero]
        exact cstr_append_nul_any _ _
      · rw [if_neg hl, if_neg hl]
        exact cstr_append_nul_any _ _
    · by_cases hl : last = '\n'
      · rw [if_pos hl, List.length_set]
        simp at hfit ⊢; omega
      · rw [if_neg hl]
        simp at hfit ⊢; omega

theorem log_wrote_any (host : Host) (L : Logger) (format : Str) (args : List Arg)
    (hfit : (vrender host format args).length < L.m_buffer.length) :
    ∃ L', ILogger.log host format args L = .ok L' ∧
      Logger.wrote L L' (cstr (dropNewline (vrender host format args))) ∧
      L'.m_buffer.length = L.m_buffer.length := by
  obtain ⟨buffer, hlog, hc, hl⟩ := logRendered_fits_any L _ hfit
  refine ⟨_, hlog, ?_, ?_⟩
  · have := wrote_write L buffer L.m_buffer_time buffer
    rw [hc] at this
    exact this
  · rw [write_m_buffer]
    exact hl

theorem lock_ok (L : Logger) (h : L.m_mutex = false) :
    ILogger.lock L = .ok { L with m_mutex := true, trace := L.trace ++ [Event.lock] } := by
  simp [ILogger.lock, h]

theorem unlock_ok (L : Logger) (h : L.m_mutex = true) :
    ILogger.unlock L = .ok { L with m_mutex := false, trace := L.trace ++ [Event.unlock] } := by
  simp [ILogger.unlock, h]

/-- For every severity, function name, line number, format and arguments: when
the chain `LOG_INSTANCE_FORMAT_LN` is entered with the mutex free and the texts
the call-site tag and the payload render to are shorter than the buffer, the
chain returns; its events are `lock`, five calls of `write` made while the mutex
is held, and `unlock`; and the sink receives exactly the time, the label, the
tag, the payload and the end-of-line marker, in this order.  The tag and the
payload are written as `log` writes a rendered text: as a C string, without its
last character when that is a newline. -/
theorem LOG_INSTANCE_FORMAT_LN_fits (host : Host) (clock : Str) (sev : Severity)
    (function : Str) (line : Int) (format : Str) (args : List Arg) (L : Logger)
    (hfree : L.m_mutex = false)
    (htagfit : (vrender host host.funclineFormat [Arg.str function, Arg.int line]).length
      < L.m_buffer.length)
    (hpayfit : (vrender host format args).length < L.m_buffer.length) :
    ∃ label L', severityToStr sev = some label ∧
      LOG_INSTANCE_FORMAT_LN host clock sev function line format args L = .ok L' ∧
      L'.trace = L.trace ++ [Event.lock, Event.write true (timeAndDateFormat clock),
        Event.write true label,
        Event.write true (cstr (dropNewline
          (vrender host host.funclineFormat [Arg.str function, Arg.int line]))),
        Event.write true (cstr (dropNewline (vrender host format args))),
        Event.write true (cstr host.endOfLine),
        Event.unlock] ∧
      L'.m_mutex = false ∧
      Logger.sinkGot L L' (timeAndDateFormat clock ++ label
        ++ cstr (dropNewline (vrender host host.funclineFormat [Arg.str function, Arg.int line]))
        ++ cstr (dropNewline (vrender host format args)) ++ cstr host.endOfLine) := by
  have hlock := lock_ok L hfree
  obtain ⟨ht, htb⟩ := time_wrote clock { L with m_mutex := true, trace := L.trace ++ [Event.lock] }
  obtain ⟨label, L3, hlabel, hsev, hs, hsb⟩ := severity_wrote sev
    (ILogger.time clock { L with m_mutex := true, trace := L.trace ++ [Event.lock] })
  obtain ⟨L4, hfl, hf, hfb⟩ := log_wrote_any host L3 host.funclineFormat
    [Arg.str function, Arg.int line] (by rw [hsb, htb]; exact htagfit)
  obtain ⟨L5, hlg, hl, hlb⟩ := log_wrote_any host L4 format args
    (by rw [hfb, hsb, htb]; exact hpayfit)
  obtain ⟨he, _⟩ := eol_wrote host L5
  have hm5 : (ILogger.eol host L5).m_mutex = true := by
    rw [he.2.2.1, hl.2.2.1, hf.2.2.1, hs.2.2.1, ht.2.2.1]
  have hunlock := unlock_ok (ILogger.eol host L5) hm5
  refine ⟨label, { (ILogger.eol host L5) with
    m_mutex := false, trace := (ILogger.eol host L5).trace ++ [Event.unlock] },
    hlabel, ?_, ?_, rfl, ?_⟩
  · unfold LOG_INSTANCE_FORMAT_LN
    simp only [hlock, bind, Except.bind, hsev, ILogger.funcline, hfl, hlg]
    exact hunlock
  · have m2 := ht.2.2.1
    have t2 := ht.1
    have m3 := hs.2.2.1
    have t3 := hs.1
    have m4 := hf.2.2.1
    have t4 := hf.1
    have m5 := hl.2.2.1
    have t5 := hl.1
    have t6 := he.1
    simp only [] at m2 t2
    rw [m2] at m3 t3
    rw [m3] at m4 t4
    rw [m4] at m5 t5
    rw [m5] at t6
    simp only [t6, t5, t4, t3, t2, List.append_assoc, List.singleton_append, List.cons_append,
      List.nil_append]
  · apply sinkGot_congr_right _ (ILogger.eol host L5) _ _ rfl rfl rfl
    apply sinkGot_congr_left { L with m_mutex := true, trace := L.trace ++ [Event.lock] }
      L _ _ rfl rfl rfl
    exact sinkGot_trans _ _ _ _ _ (sinkGot_trans _ _ _ _ _ (sinkGot_trans _ _ _ _ _
      (sinkGot_trans _ _ _ _ _ (wrote_sinkGot _ _ _ ht) (wrote_sinkGot _ _ _ hs))
      (wrote_sinkGot _ _ _ hf)) (wrote_sinkGot _ _ _ hl)) (wrote_sinkGot _ _ _ he)

set_option maxRecDepth 100000 in
/-- The chain at two concrete inputs, in `main`, line 42, on a new logger:
`LOG_INSTANCE_FORMAT_LN(Info, "%s=%d", "x", 42)`, and
`LOG_INSTANCE_FORMAT_LN(Info, "%5.2f", 2.5)`, a format the C library of the host
renders. -/
theorem LOG_INSTANCE_FORMAT_LN_fits_witness :
    (∃ L', LOG_INSTANCE_FORMAT_LN exampleHost "12:00:00".toList Severity.Info "main".toList 42
        "%s=%d".toList [Arg.str "x".toList, Arg.int 42] exampleLogger = .ok L' ∧
      L'.trace = [Event.lock, Event.write true "12:00:00".toList,
        Event.write true "[INFO]".toList, Event.write true "[main::42] ".toList,
        Event.write true "x=42".toList, Event.write true "\n".toList, Event.unlock] ∧
      L'.m_mutex = false ∧
      Logger.sinkGot exampleLogger L' "12:00:00[INFO][main::42] x=42\n".toList) ∧
    (vformat "%5.2f".toList [Arg.double 0x4004000000000000] = none ∧
      ∃ L', LOG_INSTANCE_FORMAT_LN exampleHost "12:00:00".toList Severity.Info "main".toList 42
        "%5.2f".toList [Arg.double 0x4004000000000000] exampleLogger = .ok L' ∧
      L'.trace = [Event.lock, Event.write true "12:00:00".toList,
        Event.write true "[INFO]".toList, Event.write true "[main::42] ".toList,
        Event.write true " 2.50".toList, Event.write true "\n".toList, Event.unlock] ∧
      L'.m_mutex = false ∧
      Logger.sinkGot exampleLogger L' "12:00:00[INFO][main::42]  2.50\n".toList) := by
  obtain ⟨label, L', h1, h2, h3, h4, h5⟩ := LOG_INSTANCE_FORMAT_LN_fits exampleHost
    "12:00:00".toList Severity.Info "main".toList 42 "%s=%d".toList
    [Arg.str "x".toList, Arg.int 42] exampleLogger rfl
    (by rw [exampleLogger, init_buffer_length]; decide)
    (by rw [exampleLogger, init_buffer_length]; decide)
  obtain ⟨label2, L2, k1, k2, k3, k4, k5⟩ := LOG_INSTANCE_FORMAT_LN_fits exampleHost
    "12:00:00".toList Severity.Info "main".toList 42 "%5.2f".toList
    [Arg.double 0x4004000000000000] exampleLogger rfl
    (by rw [exampleLogger, init_buffer_length]; decide)
    (by rw [exampleLogger, init_buffer_length]; decide)
  have hl : label = "[INFO]".toList := Option.some.inj (h1.symm.trans (by decide))
  have hl2 : label2 = "[INFO]".toList := Option.some.inj (k1.symm.trans (by decide))
  subst hl
  subst hl2
  have e1 : cstr (dropNewline (vrender exampleHost exampleHost.funclineFormat
      [Arg.str "main".toList, Arg.int 42])) = "[main::42] ".toList := by decide
  have e2 : cstr (dropNewline (vrender exampleHost "%s=%d".toList
      [Arg.str "x".toList, Arg.int 42])) = "x=42".toList := by decide
  have e3 : cstr (dropNewline (vrender exampleHost "%5.2f".toList
      [Arg.double 0x4004000000000000])) = " 2.50".toList := by decide
  rw [e1, e2] at h3 h5
  rw [e1, e3] at k3 k5
  exact ⟨⟨L', h2, h3, h4, h5⟩, by decide, L2, k2, k3, k4, k5⟩

/-- For every severity, function name, line number, format and arguments: when
the chain is entered with the mutex free, the call-site tag fits the buffer and
the payload renders to a text longer than the buffer, the chain runs into the
access outside the buffer. -/
theorem LOG_INSTANCE_FORMAT_LN_overflow (host : Host) (clock : Str) (sev : Severity)
    (function : Str) (line : Int) (format : Str) (args : List Arg) (L : Logger)
    (hfree : L.m_mutex = false)
    (htagfit : (vrender host host.funclineFormat [Arg.str function, Arg.int line]).length
      < L.m_buffer.length)
    (hbig : L.m_buffer.length < (vrender host format args).length) :
    LOG_INSTANCE_FORMAT_LN host clock sev function line format args L
      = .error .outOfBounds := by
  have hlock := lock_ok L hfree
  obtain ⟨_, htb⟩ := time_wrote clock { L with m_mutex := true, trace := L.trace ++ [Event.lock] }
  obtain ⟨label, L3, _, hsev, _, hsb⟩ := severity_wrote sev
    (ILogger.time clock { L with m_mutex := true, trace := L.trace ++ [Event.lock] })
  obtain ⟨L4, hfl, _, hfb⟩ := log_wrote_any host L3 host.funclineFormat
    [Arg.str function, Arg.int line] (by rw [hsb, htb]; exact htagfit)
  have hover := log_overflow host L4 format args _ rfl
    (by rw [hfb, hsb, htb]; exact hbig)
  unfold LOG_INSTANCE_FORMAT_LN
  simp only [hlock, bind, Except.bind, hsev, ILogger.funcline, hfl, hover]

theorem vformat_percent_s (p : Str) (h : ∀ c ∈ p, c ≠ NUL) :
    vformat "%s".toList [Arg.str p] = some p := by
  have : "%s".toList = '%' :: 's' :: [] := rfl
  rw [this, vformat_s, vformat_nil, cstr_of_nul_free p h]
  simp

set_option maxRecDepth 100000 in
/-- C1, at a failing input: on a new logger with the default buffer of 1024
characters, whose mutex is free, the chain `LOG_INSTANCE_FORMAT_LN(Info, "%s", s)`
for a string `s` of 1030 characters does not append the five texts and release
the lock.  After the time, the label and the call-site tag, `log` indexes the
buffer at 1029, outside its 1024 characters: the calls of the chain, made one by
one, stop there, with three texts written and the mutex held, and reach neither
`eol` nor `unlock`. -/
theorem LOG_INSTANCE_FORMAT_LN_overflow_example :
    (ILogger.init 1024 (fun _ => none) none).m_buffer.length = 1024 ∧
    (ILogger.init 1024 (fun _ => none) none).m_mutex = false ∧
    vformat "%s".toList [Arg.str (List.replicate 1030 'a')] = some (List.replicate 1030 'a') ∧
    LOG_INSTANCE_FORMAT_LN exampleHost "12:00:00".toList Severity.Info "main".toList 42
      "%s".toList [Arg.str (List.replicate 1030 'a')] (ILogger.init 1024 (fun _ => none) none)
      = .error .outOfBounds ∧
    (run exampleHost exampleConfig overflowChain (ILogger.init 1024 (fun _ => none) none)).2
      = some Fault.outOfBounds ∧
    (run exampleHost exampleConfig overflowChain
        (ILogger.init 1024 (fun _ => none) none)).1.trace
      = [Event.lock, Event.write true "12:00:00".toList, Event.write true "[INFO]".toList,
         Event.write true "[main::42] ".toList] ∧
    (run exampleHost exampleConfig overflowChain
      (ILogger.init 1024 (fun _ => none) none)).1.m_mutex = true := by
  have hlen : (ILogger.init 1024 (fun _ => none) none).m_buffer.length = 1024 := by
    rw [init_buffer_length]
    rfl
  have hr : vformat "%s".toList [Arg.str (List.replicate 1030 'a')]
      = some (List.replicate 1030 'a') := by
    apply vformat_percent_s
    intro c hc
    rw [List.mem_replicate] at hc
    rw [hc.2]
    decide
  refine ⟨hlen, rfl, hr, ?_, by decide, by decide, by decide⟩
  apply LOG_INSTANCE_FORMAT_LN_overflow exampleHost _ _ _ _ _ _ _ rfl
  · rw [hlen]
    decide
  · rw [hlen, vrender_of_vformat _ _ _ _ hr, List.length_replicate]
    decide

theorem log_exact (host : Host) (L : Logger) (format : Str) (args : List Arg) (t : Str)
    (hr : vrender host format args = t) (hnul : ∀ c ∈ t, c ≠ NUL)
    (hlen : t.length = L.m_buffer.length) (hpos : 0 < t.length) :
    ∃ L', ILogger.log host format args L = .ok L' ∧ Logger.wrote L L' t.dropLast ∧
      L'.m_buffer.length = L.m_buffer.length := by
  have hv : vsnprintf L.m_buffer L.m_buffer.length t
      = (t.dropLast ++ NUL :: [], t.length) := by
    unfold vsnprintf
    have h0 : L.m_buffer.length ≠ 0 := by omega
    have hk : min t.length (L.m_buffer.length - 1) = t.length - 1 := by omega
    have hd : List.drop (t.length - 1 + 1) L.m_buffer = [] := by
      apply List.drop_eq_nil_of_le
      omega
    simp only [h0, if_false, hk, hd, List.dropLast_eq_take]
  have hget : (t.dropLast ++ NUL :: [])[t.length - 1]? = some NUL := by
    rw [List.getElem?_append_right (by simp)]
    simp
  have hne : ¬ (NUL = '\n') := by decide
  have hc : cstr (t.dropLast ++ NUL :: []) = t.dropLast :=
    cstr_append_nul _ _ (fun c hc => hnul c (List.mem_of_mem_dropLast hc))
  refine ⟨Logger.write (t.dropLast ++ NUL :: []) { L with m_buffer := t.dropLast ++ NUL :: [] },
    ?_, ?_, ?_⟩
  · rw [log_of_vrender host L format args t hr]
    unfold ILogger.logRendered
    simp only [hv]
    rw [if_pos hpos]
    simp only [hget, hne, if_false]
  · have := wrote_write L (t.dropLast ++ NUL :: []) L.m_buffer_time (t.dropLast ++ NUL :: [])
    rw [hc] at this
    exact this
  · rw [write_m_buffer]
    simp only [List.length_append, List.length_dropLast, List.length_cons, List.length_nil]
    omega

theorem log_newline_terminated (host : Host) (L : Logger) (format : Str) (args : List Arg)
    (t : Str) (hr : vrender host format args = t) (hnul : ∀ c ∈ t, c ≠ NUL)
    (hlast : t.getLast? = some '\n') (hfit : t.length ≤ L.m_buffer.length) :
    ∃ L', ILogger.log host format args L = .ok L' ∧ Logger.wrote L L' t.dropLast ∧
      L'.m_buffer.length = L.m_buffer.length := by
  rcases Nat.lt_or_eq_of_le hfit with hlt | heq
  · obtain ⟨L', h1, h2, h3⟩ := log_wrote host L format args t hr hnul hlt
    refine ⟨L', h1, ?_, h3⟩
    unfold dropNewline at h2
    rw [if_pos hlast] at h2
    exact h2
  · have hpos : 0 < t.length := by
      cases t with
      | nil => simp at hlast
      | cons a t => simp
    exact log_exact host L format args t hr hnul heq hpos

theorem log_ok_length (host : Host) (L L' : Logger) (format : Str) (args : List Arg) (t : Str)
    (hr : vrender host format args = t) (h : ILogger.log host format args L = .ok L') :
    t.length ≤ L.m_buffer.length := by
  by_contra hbig
  rw [log_overflow host L format args t hr (by omega)] at h
  exact Except.noConfusion h

/-! ## Opening and closing the file -/

theorem toDigitsCore_length (fuel n : Nat) (acc : List Char) :
    acc.length ≤ (Nat.toDigitsCore 10 fuel n acc).length := by
  induction fuel generalizing n acc with
  | zero => simp [Nat.toDigitsCore]
  | succ k ih =>
    unfold Nat.toDigitsCore
    simp only []
    split
    · simp
    · exact le_trans (by simp) (ih _ _)

theorem toDigits_length_pos (n : Nat) : 0 < (Nat.toDigits 10 n).length := by
  unfold Nat.toDigits Nat.toDigitsCore
  simp only []
  split
  · simp
  · exact lt_of_lt_of_le (by simp) (toDigitsCore_length _ _ _)

theorem timeAndDateFormat_length (clock : Str) : (timeAndDateFormat clock).length ≤ 31 := by
  unfold timeAndDateFormat
  rw [List.length_take]
  exact Nat.min_le_left _ _

theorem headerRendering_eq (cfg : Config) (clock : Str) :
    vformat headerFormat (headerArgs cfg (timeAndDateFormat clock))
      = some (headerRendering cfg clock) := by
  unfold headerRendering
  rw [header_rendering]
  rfl

theorem footerRendering_eq (cfg : Config) (clock : Str) :
    vformat footerFormat (footerArgs cfg (timeAndDateFormat clock))
      = some (footerRendering cfg clock) := by
  unfold footerRendering
  rw [footer_rendering]
  rfl

theorem headerRendering_last (cfg : Config) (clock : Str) :
    (headerRendering cfg clock).getLast? = some '\n' := by
  unfold headerRendering
  rw [header_rendering]
  simp only [Option.getD_some]
  rw [List.getLast?_append]
  rfl

theorem footerRendering_last (cfg : Config) (clock : Str) :
    (footerRendering cfg clock).getLast? = some '\n' := by
  unfold footerRendering
  rw [footer_rendering]
  simp only [Option.getD_some]
  rw [List.getLast?_append]
  rfl

theorem headerRendering_length (cfg : Config) (clock : Str) :
    167 + (cstr cfg.project_name).length ≤ (headerRendering cfg clock).length := by
  unfold headerRendering
  rw [header_rendering]
  have h1 := toDigits_length_pos cfg.major_version
  have h2 := toDigits_length_pos cfg.minor_version
  have h3 : 5 ≤ (if cfg.debug = true then "Debug".toList else "Release".toList).length := by
    cases cfg.debug <;> decide
  simp only [Option.getD_some, List.length_append, delimiter, List.length_replicate]
  have e1 : "\n  ".toList.length = 3 := rfl
  have e2 : " ".toList.length = 1 := rfl
  have e3 : ".".toList.length = 1 := rfl
  have e4 : " - Event log - ".toList.length = 15 := rfl
  have e5 : "\n  git branch: ".toList.length = 15 := rfl
  have e6 : "\n  git SHA1: ".toList.length = 13 := rfl
  have e7 : "\n".toList.length = 1 := rfl
  have e8 : "\n\n".toList.length = 2 := rfl
  rw [e1, e2, e3, e4, e5, e6, e7, e8]
  omega

theorem footerRendering_length (cfg : Config) (clock : Str) :
    (footerRendering cfg clock).length ≤ 161 + (cstr cfg.project_name).length := by
  unfold footerRendering
  rw [footer_rendering]
  have h1 := timeAndDateFormat_length clock
  rw [← timeAndDateFormat_cstr] at h1
  simp only [Option.getD_some, List.length_append, delimiter, List.length_replicate]
  have e1 : "\n  ".toList.length = 3 := rfl
  have e2 : " log closed at ".toList.length = 15 := rfl
  have e7 : "\n".toList.length = 1 := rfl
  have e8 : "\n\n".toList.length = 2 := rfl
  rw [e1, e2, e7, e8]
  omega

theorem footer_shorter_than_header (cfg : Config) (c1 c2 : Str) :
    (footerRendering cfg c1).length < (headerRendering cfg c2).length := by
  have h1 := footerRendering_length cfg c1
  have h2 := headerRendering_length cfg c2
  omega

theorem header_spec (host : Host) (cfg : Config) (clock : Str) (L : Logger)
    (hfit : (headerRendering cfg clock).length ≤ L.m_buffer.length) :
    ∃ L', Logger.header host cfg clock L = .ok L' ∧
      Logger.wrote L L' (headerRendering cfg clock).dropLast ∧
      L'.m_buffer.length = L.m_buffer.length := by
  unfold Logger.header Logger.currentDate
  exact log_newline_terminated host { L with m_buffer_time := timeAndDateFormat clock } _ _ _
    (vrender_of_vformat _ _ _ _ (headerRendering_eq cfg clock))
    (vformat_ne_nul _ _ _ (by simp [headerArgs]) (headerRendering_eq cfg clock))
    (headerRendering_last cfg clock) hfit

theorem header_ok_fits (host : Host) (cfg : Config) (clock : Str) (L L' : Logger)
    (h : Logger.header host cfg clock L = .ok L') :
    (headerRendering cfg clock).length ≤ L.m_buffer.length := by
  unfold Logger.header Logger.currentDate at h
  exact log_ok_length host { L with m_buffer_time := timeAndDateFormat clock } L' _ _ _
    (vrender_of_vformat _ _ _ _ (headerRendering_eq cfg clock)) h

theorem footer_spec (host : Host) (cfg : Config) (clock : Str) (L : Logger)
    (hfit : (footerRendering cfg clock).length ≤ L.m_buffer.length) :
    ∃ L', Logger.footer host cfg clock L = .ok L' ∧
      Logger.wrote L L' (footerRendering cfg clock).dropLast ∧
      L'.m_buffer.length = L.m_buffer.length := by
  unfold Logger.footer Logger.currentTime
  exact log_newline_terminated host { L with m_buffer_time := timeAndDateFormat clock } _ _ _
    (vrender_of_vformat _ _ _ _ (footerRendering_eq cfg clock))
    (vformat_ne_nul _ _ _ (by simp [footerArgs]) (footerRendering_eq cfg clock))
    (footerRendering_last cfg clock) hfit

theorem footer_ok_fits (host : Host) (cfg : Config) (clock : Str) (L L' : Logger)
    (h : Logger.footer host cfg clock L = .ok L') :
    (footerRendering cfg clock).length ≤ L.m_buffer.length := by
  unfold Logger.footer Logger.currentTime at h
  exact log_ok_length host { L with m_buffer_time := timeAndDateFormat clock } L' _ _ _
    (vrender_of_vformat _ _ _ _ (footerRendering_eq cfg clock)) h

theorem path_none_of_not_open (L : Logger) (h : L.m_file.is_open = false) :
    L.m_file.path = none := by
  unfold OFStream.is_open at h
  cases hp : L.m_file.path with
  | none => rfl
  | some p => simp [hp] at h

theorem fileOpen_closed (host : Host) (path : Str) (L : Logger) (hclosed : L.m_file.path = none)
    (hcan : host.canCreate path = true) :
    Logger.fileOpen host path L = { L with m_file := ⟨some path, false⟩
                                           disk := fun q => if q = path then some [] else L.disk q } := by
  unfold Logger.fileOpen OFStream.is_open
  simp [hclosed, hcan]

theorem fileOpen_refused (host : Host) (path : Str) (L : Logger) (hclosed : L.m_file.path = none)
    (hcan : host.canCreate path = false) :
    Logger.fileOpen host path L = { L with m_file := ⟨none, true⟩ } := by
  unfold Logger.fileOpen OFStream.is_open
  simp only [hclosed, hcan]
  simp

/-- What a successful `open` on a closed stream has done. -/
theorem open_success (host : Host) (cfg : Config) (logfile clock : Str) (L L1 : Logger)
    (hclosed : L.m_file.path = none)
    (h : Logger.open host cfg logfile clock L = .ok (true, L1)) :
    host.mkdir (resolveDir host cfg logfile) = true ∧
    host.canCreate (resolve host cfg logfile) = true ∧
    (headerRendering cfg clock).length ≤ L.m_buffer.length ∧
    L1.m_file = ⟨some (resolve host cfg logfile), false⟩ ∧
    L1.disk = (fun q => if q = resolve host cfg logfile
      then some (headerRendering cfg clock).dropLast else L.disk q) ∧
    L1.m_stream = L.m_stream.map (fun out => out ++ (headerRendering cfg clock).dropLast) ∧
    L1.m_mutex = L.m_mutex ∧
    L1.m_buffer.length = L.m_buffer.length ∧
    L1.trace = L.trace ++ [Event.write L.m_mutex (headerRendering cfg clock).dropLast] := by
  unfold Logger.open at h
  cases hmk : host.mkdir (resolveDir host cfg logfile) with
  | false => simp [hmk] at h
  | true =>
    cases hcan : host.canCreate (resolve host cfg logfile) with
    | false =>
      simp [hmk, fileOpen_refused host _ L hclosed hcan, OFStream.is_open] at h
    | true =>
      simp only [hmk, fileOpen_closed host _ L hclosed hcan, OFStream.is_open] at h
      simp only [Bool.not_true, Bool.false_eq_true, if_false, Option.isSome_some] at h
      split at h
      · rename_i L' hh
        have hfit := header_ok_fits host cfg clock _ _ hh
        obtain ⟨L'', h1, h2, h3⟩ := header_spec host cfg clock _ hfit
        rw [hh] at h1
        injection h1 with h1
        subst h1
        injection h with h
        injection h with _ h
        subst h
        obtain ⟨w1, w2, w3, w4, w5⟩ := h2
        refine ⟨rfl, rfl, hfit, w4, ?_, w2, w3, h3, w1⟩
        rw [w5]
        funext q
        by_cases hq : q = resolve host cfg logfile <;> simp [hq]
      · exact Except.noConfusion h

/-- What `close` does to a logger whose file is open in a good state. -/
theorem close_spec (host : Host) (cfg : Config) (clock : Str) (L : Logger) (p : Str)
    (hfile : L.m_file = ⟨some p, false⟩)
    (hfit : (footerRendering cfg clock).length ≤ L.m_buffer.length) :
    ∃ L2, Logger.close host cfg clock L = .ok L2 ∧
      L2.m_file = ⟨none, false⟩ ∧
      L2.disk = (fun q => if q = p
        then some ((L.disk p).getD [] ++ (footerRendering cfg clock).dropLast) else L.disk q) ∧
      L2.m_stream = L.m_stream.map (fun out => out ++ (footerRendering cfg clock).dropLast) ∧
      L2.m_mutex = L.m_mutex ∧
      L2.m_buffer.length = L.m_buffer.length ∧
      L2.trace = L.trace ++ [Event.write L.m_mutex (footerRendering cfg clock).dropLast] := by
  obtain ⟨L', h1, ⟨w1, w2, w3, w4, w5⟩, h3⟩ := footer_spec host cfg clock L hfit
  refine ⟨{ L' with m_file := { L'.m_file with path := none } }, ?_, ?_, ?_, w2, w3, h3, w1⟩
  · unfold Logger.close OFStream.is_open
    simp [hfile, h1]
  · simp [w4, hfile]
  · simp only [w5, hfile]
    simp

theorem close_closed (host : Host) (cfg : Config) (clock : Str) (L : Logger)
    (h : L.m_file.path = none) :
    Logger.close host cfg clock L = .ok L := by
  unfold Logger.close OFStream.is_open
  simp [h]

/-- C8: when `open` succeeds on a logger whose file stream is closed, the `close`
that follows at once returns, and leaves in the file exactly the text `header`
wrote (the rendering of its format, which `log` writes without the final newline)
followed by the text `footer` wrote (likewise), nothing before, between or after;
the stream is closed, and no other file has changed. -/
theorem open_then_close_leaves_header_footer (host : Host) (cfg : Config)
    (logfile openClock closeClock : Str) (L L1 : Logger)
    (hclosed : L.m_file.is_open = false)
    (hopen : Logger.open host cfg logfile openClock L = .ok (true, L1)) :
    ∃ L2, Logger.close host cfg closeClock L1 = .ok L2 ∧
      L2.disk (resolve host cfg logfile)
        = some ((headerRendering cfg openClock).dropLast
            ++ (footerRendering cfg closeClock).dropLast) ∧
      L2.m_file.is_open = false ∧
      ∀ q, q ≠ resolve host cfg logfile → L2.disk q = L.disk q := by
  have hc : L.m_file.path = none := by
    unfold OFStream.is_open at hclosed
    cases hp : L.m_file.path with
    | none => rfl
    | some p => simp [hp] at hclosed
  obtain ⟨_, _, hfit, hfile, hdisk, _, _, hbuf, _⟩ :=
    open_success host cfg logfile openClock L L1 hc hopen
  have hffit : (footerRendering cfg closeClock).length ≤ L1.m_buffer.length := by
    have := footer_shorter_than_header cfg closeClock openClock
    omega
  obtain ⟨L2, h1, h2, h3, _⟩ := close_spec host cfg closeClock L1 _ hfile hffit
  refine ⟨L2, h1, ?_, ?_, ?_⟩
  · rw [h3, hdisk]
    simp
  · simp [OFStream.is_open, h2]
  · intro q hq
    rw [h3, hdisk]
    simp [hq]

set_option maxRecDepth 100000 in
/-- C8, at a concrete input: a new logger opens `demo.log` under `/tmp/`, and
closes it at once. -/
theorem open_then_close_leaves_header_footer_witness :
    exampleLogger.m_file.is_open = false ∧
    Logger.open exampleHost exampleConfig "demo.log".toList "2018-01-01".toList exampleLogger
      = .ok (true, stateOr exampleLogger Prod.snd (Logger.open exampleHost exampleConfig
          "demo.log".toList "2018-01-01".toList exampleLogger)) ∧
    resolve exampleHost exampleConfig "demo.log".toList = "/tmp/demo.log".toList ∧
    (headerRendering exampleConfig "2018-01-01".toList).dropLast
        ++ (footerRendering exampleConfig "12:00:00".toList).dropLast
      = delimiter ++ ("\n  demo Debug 1.2 - Event log - 2018-01-01\n  git branch: master"
          ++ "\n  git SHA1: c9e5b68\n").toList ++ delimiter ++ "\n\n".toList
        ++ delimiter ++ "\n  demo log closed at 12:00:00\n".toList ++ delimiter
        ++ "\n".toList ∧
    ∃ L2, Logger.close exampleHost exampleConfig "12:00:00".toList
        (stateOr exampleLogger Prod.snd (Logger.open exampleHost exampleConfig
          "demo.log".toList "2018-01-01".toList exampleLogger)) = .ok L2 ∧
      L2.disk (resolve exampleHost exampleConfig "demo.log".toList)
        = some ((headerRendering exampleConfig "2018-01-01".toList).dropLast
            ++ (footerRendering exampleConfig "12:00:00".toList).dropLast) ∧
      L2.m_file.is_open = false ∧
      ∀ q, q ≠ resolve exampleHost exampleConfig "demo.log".toList →
        L2.disk q = exampleLogger.disk q :=
  ⟨rfl, rfl, by decide, by decide,
    open_then_close_leaves_header_footer exampleHost exampleConfig "demo.log".toList
    "2018-01-01".toList "12:00:00".toList exampleLogger _ rfl rfl⟩

/-! ## A text longer than the buffer -/

/-- C5, at a failing input: with the default buffer of 1024 characters and a
format `"%s"` whose argument has 1030 characters, the index `n - 1` that `log`
reads is 1029, outside the buffer, and `log` runs into that access instead of
writing a truncated text. -/
theorem log_overflow_reads_outside_buffer :
    (ILogger.init 1024 (fun _ => none) none).m_buffer.length = 1024 ∧
    vformat "%s".toList [Arg.str (List.replicate 1030 'a')] = some (List.replicate 1030 'a') ∧
    ¬ (List.replicate 1030 'a').length - 1
        < (ILogger.init 1024 (fun _ => none) none).m_buffer.length ∧
    (∀ host : Host, ILogger.log host "%s".toList [Arg.str (List.replicate 1030 'a')]
      (ILogger.init 1024 (fun _ => none) none) = .error .outOfBounds) := by
  have hlen : (ILogger.init 1024 (fun _ => none) none).m_buffer.length = 1024 := by
    rw [init_buffer_length]
    rfl
  have hr : vformat "%s".toList [Arg.str (List.replicate 1030 'a')]
      = some (List.replicate 1030 'a') := by
    apply vformat_percent_s
    intro c hc
    rw [List.mem_replicate] at hc
    rw [hc.2]
    decide
  refine ⟨hlen, hr, ?_, ?_⟩
  · rw [hlen, List.length_replicate]
    decide
  · intro host
    exact log_overflow host _ _ _ _ (vrender_of_vformat _ _ _ _ hr)
      (by rw [hlen, List.length_replicate]; decide)


/-! ## Changing the log file -/

theorem write_open_file (m : Str) (L : Logger) (p : Str) (hfile : L.m_file = ⟨some p, false⟩) :
    (Logger.write m L).m_file = ⟨some p, false⟩ ∧
    (Logger.write m L).disk = (fun q => if q = p
      then some ((L.disk p).getD [] ++ cstr m) else L.disk q) ∧
    (Logger.write m L).m_buffer = L.m_buffer := by
  have h := wrote_write L L.m_buffer L.m_buffer_time m
  obtain ⟨_, _, _, w4, w5⟩ := h
  refine ⟨w4.trans hfile, ?_, write_m_buffer m L⟩
  rw [show (Logger.write m L).disk = _ from w5, hfile]
  simp

theorem close_ok_closed (host : Host) (cfg : Config) (clock : Str) (L L2 : Logger)
    (h : Logger.close host cfg clock L = .ok L2) : L2.m_file.path = none := by
  cases hp : L.m_file.path with
  | none =>
    rw [close_closed host cfg clock L hp] at h
    injection h with h
    subst h
    exact hp
  | some p =>
    unfold Logger.close OFStream.is_open at h
    rw [hp] at h
    rw [if_neg (by simp)] at h
    cases hf : Logger.footer host cfg clock L with
    | error e =>
      rw [hf] at h
      exact Except.noConfusion h
    | ok L' =>
      rw [hf] at h
      rw [← Except.ok.inj h]

theorem close_ok_fits (host : Host) (cfg : Config) (clock : Str) (L L2 : Logger) (p : Str)
    (hfile : L.m_file.path = some p) (h : Logger.close host cfg clock L = .ok L2) :
    (footerRendering cfg clock).length ≤ L.m_buffer.length := by
  unfold Logger.close OFStream.is_open at h
  rw [hfile] at h
  rw [if_neg (by simp)] at h
  cases hf : Logger.footer host cfg clock L with
  | error e =>
    rw [hf] at h
    exact Except.noConfusion h
  | ok L' => exact footer_ok_fits host cfg clock L L' hf

/-- What a successful `changeLog` does to a logger whose file is open in a good
state. -/
theorem changeLog_spec (host : Host) (cfg : Config) (logfile closeClock openClock : Str)
    (L L3 : Logger) (p : Str) (hfile : L.m_file = ⟨some p, false⟩)
    (h : Logger.changeLog host cfg logfile closeClock openClock L = .ok (true, L3)) :
    ∃ L2, Logger.close host cfg closeClock L = .ok L2 ∧ L2.m_file.is_open = false ∧
      Logger.open host cfg logfile openClock L2 = .ok (true, L3) ∧
      L3.m_file = ⟨some (resolve host cfg logfile), false⟩ ∧
      L3.disk = (fun q => if q = resolve host cfg logfile
        then some (headerRendering cfg openClock).dropLast
        else if q = p then some ((L.disk p).getD [] ++ (footerRendering cfg closeClock).dropLast)
        else L.disk q) := by
  unfold Logger.changeLog at h
  cases hc : Logger.close host cfg closeClock L with
  | error e =>
    rw [hc] at h
    exact Except.noConfusion h
  | ok L2 =>
    rw [hc] at h
    simp only [] at h
    have hfit := close_ok_fits host cfg closeClock L L2 p (by rw [hfile]) hc
    obtain ⟨L2', h1, h2, h3, _⟩ := close_spec host cfg closeClock L p hfile hfit
    have hL2 : L2' = L2 := Except.ok.inj (h1.symm.trans hc)
    subst hL2
    obtain ⟨_, _, _, o4, o5, _⟩ := open_success host cfg logfile openClock L2' L3
      (by rw [h2]) h
    refine ⟨L2', rfl, by simp [OFStream.is_open, h2], h, o4, ?_⟩
    rw [o5, h3]

/-- C9, as amended: `changeLog` is `close` followed by `open`.  Start from a
logger that opened `A` on a closed stream and then wrote the C string `T`; when
`changeLog(B)` succeeds, the file of `B` holds only the new header whatever it
held before, and the logger is again one that has just opened a file on a closed
stream, so that `changeLog` can be called again; when `B` names another file than
`A`, the file of `A` holds the header, `T` and the footer, in this order. -/
theorem changeLog_closes_old_file_and_starts_new (host : Host) (cfg : Config)
    (A B clockA T closeClock clockB : Str) (L L1 L3 : Logger)
    (hclosed : L.m_file.is_open = false)
    (hA : Logger.open host cfg A clockA L = .ok (true, L1))
    (hB : Logger.changeLog host cfg B closeClock clockB (Logger.write T L1) = .ok (true, L3)) :
    (resolve host cfg A ≠ resolve host cfg B →
      L3.disk (resolve host cfg A)
        = some ((headerRendering cfg clockA).dropLast ++ cstr T
            ++ (footerRendering cfg closeClock).dropLast)) ∧
    L3.disk (resolve host cfg B) = some (headerRendering cfg clockB).dropLast ∧
    L3.m_file = ⟨some (resolve host cfg B), false⟩ ∧
    ∃ L2, Logger.close host cfg closeClock (Logger.write T L1) = .ok L2 ∧
      L2.m_file.is_open = false ∧
      Logger.open host cfg B clockB L2 = .ok (true, L3) := by
  have hc := path_none_of_not_open L hclosed
  obtain ⟨_, _, _, hfile, hdisk, _⟩ := open_success host cfg A clockA L L1 hc hA
  obtain ⟨wfile, wdisk, _⟩ := write_open_file T L1 _ hfile
  obtain ⟨L2, c1, c2, c3, c4, c5⟩ := changeLog_spec host cfg B closeClock clockB
    (Logger.write T L1) L3 _ wfile hB
  refine ⟨?_, ?_, c4, L2, c1, c2, c3⟩
  · intro hne
    rw [c5, wdisk, hdisk]
    simp [hne]
  · rw [c5]
    simp

set_option maxRecDepth 100000 in
/-- C9, at a concrete input: a new logger opens `a.log`, writes `hello`, and is
redirected to `b.log`, a file that held a text before. -/
theorem changeLog_closes_old_file_and_starts_new_witness :
    diskLogger.m_file.is_open = false ∧
    Logger.open exampleHost exampleConfig "a.log".toList "2018-01-01".toList diskLogger
      = .ok (true, openedLogger) ∧
    Logger.changeLog exampleHost exampleConfig "b.log".toList "12:00:00".toList
      "2018-01-02".toList (Logger.write "hello".toList openedLogger)
      = .ok (true, changedLogger) ∧
    resolve exampleHost exampleConfig "a.log".toList
      ≠ resolve exampleHost exampleConfig "b.log".toList ∧
    diskLogger.disk (resolve exampleHost exampleConfig "b.log".toList)
      = some "old content".toList ∧
    changedLogger.disk (resolve exampleHost exampleConfig "a.log".toList)
      = some ((headerRendering exampleConfig "2018-01-01".toList).dropLast
          ++ cstr "hello".toList ++ (footerRendering exampleConfig "12:00:00".toList).dropLast) ∧
    changedLogger.disk (resolve exampleHost exampleConfig "b.log".toList)
      = some (headerRendering exampleConfig "2018-01-02".toList).dropLast ∧
    changedLogger.m_file = ⟨some (resolve exampleHost exampleConfig "b.log".toList), false⟩ :=
  have h := changeLog_closes_old_file_and_starts_new exampleHost exampleConfig "a.log".toList
      "b.log".toList "2018-01-01".toList "hello".toList "12:00:00".toList "2018-01-02".toList
      diskLogger openedLogger changedLogger rfl rfl rfl
  ⟨rfl, rfl, rfl, by decide, by decide, h.1 (by decide), h.2.1, h.2.2.1⟩

set_option maxRecDepth 100000 in
/-- C9 as stated fails: when `changeLog` names the file that is open, the call
succeeds and that file holds only the new header; the text `hello` that was
written to it, its first header and the footer are gone. -/
theorem changeLog_same_file_discards_text :
    Logger.open exampleHost exampleConfig "a.log".toList "2018-01-01".toList diskLogger
      = .ok (true, openedLogger) ∧
    Logger.changeLog exampleHost exampleConfig "a.log".toList "12:00:00".toList
      "2018-01-02".toList (Logger.write "hello".toList openedLogger)
      = .ok (true, reopenedLogger) ∧
    reopenedLogger.disk (resolve exampleHost exampleConfig "a.log".toList)
      = some (headerRendering exampleConfig "2018-01-02".toList).dropLast ∧
    reopenedLogger.disk (resolve exampleHost exampleConfig "a.log".toList)
      ≠ some ((headerRendering exampleConfig "2018-01-01".toList).dropLast
          ++ cstr "hello".toList ++ (footerRendering exampleConfig "12:00:00".toList).dropLast) :=
  ⟨rfl, rfl, by decide, by decide⟩

/-! ## A failed open -/

theorem write_closed (m : Str) (L : Logger) (hclosed : L.m_file.path = none) :
    (Logger.write m L).disk = L.disk ∧ (Logger.write m L).m_file = L.m_file ∧
    (Logger.write m L).m_buffer = L.m_buffer ∧ (Logger.write m L).m_mutex = L.m_mutex ∧
    (Logger.write m L).m_stream = L.m_stream.map (fun out => out ++ cstr m) := by
  obtain ⟨_, w2, w3, w4, w5⟩ := wrote_write L L.m_buffer L.m_buffer_time m
  refine ⟨?_, w4, write_m_buffer m L, w3, w2⟩
  rw [show (Logger.write m L).disk = _ from w5, hclosed]

theorem open_failed (host : Host) (cfg : Config) (logfile clock : Str) (L L1 : Logger)
    (hclosed : L.m_file.path = none)
    (h : Logger.open host cfg logfile clock L = .ok (false, L1)) :
    L1.m_file.path = none ∧ L1.disk = L.disk ∧ L1.m_stream = L.m_stream := by
  unfold Logger.open at h
  cases hmk : host.mkdir (resolveDir host cfg logfile) with
  | false =>
    rw [hmk] at h
    rw [if_pos (by simp)] at h
    have := (Prod.mk.inj (Except.ok.inj h)).2
    rw [← this]
    exact ⟨hclosed, rfl, rfl⟩
  | true =>
    rw [hmk] at h
    rw [if_neg (by simp)] at h
    cases hcan : host.canCreate (resolve host cfg logfile) with
    | false =>
      rw [fileOpen_refused host _ L hclosed hcan] at h
      simp only [OFStream.is_open] at h
      rw [if_pos (by simp)] at h
      have := (Prod.mk.inj (Except.ok.inj h)).2
      rw [← this]
      exact ⟨rfl, rfl, rfl⟩
    | true =>
      rw [fileOpen_closed host _ L hclosed hcan] at h
      simp only [OFStream.is_open] at h
      rw [if_neg (by simp)] at h
      split at h
      · have := (Prod.mk.inj (Except.ok.inj h)).1
        exact absurd this (by decide)
      · exact Except.noConfusion h

theorem open_refused (host : Host) (cfg : Config) (logfile clock : Str) (L : Logger)
    (hclosed : L.m_file.path = none)
    (h : host.mkdir (resolveDir host cfg logfile) = false
      ∨ host.canCreate (resolve host cfg logfile) = false) :
    ∃ L1, Logger.open host cfg logfile clock L = .ok (false, L1) := by
  unfold Logger.open
  cases hmk : host.mkdir (resolveDir host cfg logfile) with
  | false => exact ⟨L, by rw [if_pos (by simp)]⟩
  | true =>
    rw [hmk] at h
    have hcan : host.canCreate (resolve host cfg logfile) = false := by
      rcases h with h | h
      · exact absurd h (by decide)
      · exact h
    rw [if_neg (by simp), fileOpen_refused host _ L hclosed hcan]
    exact ⟨_, by simp only [OFStream.is_open]; rw [if_pos (by simp)]⟩

/-- C10, as amended: a failed `open` on a closed stream, and a failed `changeLog`
on any logger, leave no file open; every write that follows leaves the files,
the stream, the buffer and the mutex as they are and only appends the message to
the mirror when there is one; after an `open` that succeeds a write reaches the
file again.  When the directory or the file cannot be created, `open` on a closed
stream returns false and runs into no fault. -/
theorem failed_open_leaves_sink_closed (host : Host) (cfg : Config)
    (logfile closeClock openClock : Str) (L L1 : Logger)
    (hfail : (L.m_file.is_open = false ∧
        Logger.open host cfg logfile openClock L = .ok (false, L1))
      ∨ Logger.changeLog host cfg logfile closeClock openClock L = .ok (false, L1)) :
    L1.m_file.is_open = false ∧
    (∀ message, (Logger.write message L1).disk = L1.disk ∧
      (Logger.write message L1).m_file = L1.m_file ∧
      (Logger.write message L1).m_buffer = L1.m_buffer ∧
      (Logger.write message L1).m_mutex = L1.m_mutex ∧
      (Logger.write message L1).m_stream
        = L1.m_stream.map (fun out => out ++ cstr message)) ∧
    (∀ logfile' clock' L2 message,
      Logger.open host cfg logfile' clock' L1 = .ok (true, L2) →
      (Logger.write message L2).disk (resolve host cfg logfile')
        = some ((headerRendering cfg clock').dropLast ++ cstr message)) ∧
    (∀ K file clock, K.m_file.is_open = false →
      host.mkdir (resolveDir host cfg file) = false
        ∨ host.canCreate (resolve host cfg file) = false →
      ∃ K1, Logger.open host cfg file clock K = .ok (false, K1)) := by
  have hp : L1.m_file.path = none := by
    rcases hfail with ⟨hc, ho⟩ | hcl
    · exact (open_failed host cfg logfile openClock L L1 (path_none_of_not_open L hc) ho).1
    · unfold Logger.changeLog at hcl
      cases hc : Logger.close host cfg closeClock L with
      | error e =>
        rw [hc] at hcl
        exact Except.noConfusion hcl
      | ok L2 =>
        rw [hc] at hcl
        exact (open_failed host cfg logfile openClock L2 L1
          (close_ok_closed host cfg closeClock L L2 hc) hcl).1
  refine ⟨by simp [OFStream.is_open, hp], fun message => write_closed message L1 hp, ?_, ?_⟩
  · intro logfile' clock' L2 message ho
    obtain ⟨_, _, _, hfile, hdisk, _⟩ := open_success host cfg logfile' clock' L1 L2 hp ho
    rw [(write_open_file message L2 _ hfile).2.1, hdisk]
    simp
  · intro K file clock hK hcannot
    exact open_refused host cfg file clock K (path_none_of_not_open K hK) hcannot

/-- C10, at a concrete input: on a host that cannot create the directory, a new
logger fails to open `demo.log`. -/
theorem failed_open_leaves_sink_closed_witness :
    Logger.open refusingHost exampleConfig "demo.log".toList "2018-01-01".toList exampleLogger
      = .ok (false, exampleLogger) ∧
    exampleLogger.m_file.is_open = false ∧
    ∀ message, (Logger.write message exampleLogger).disk = exampleLogger.disk ∧
      (Logger.write message exampleLogger).m_stream
        = exampleLogger.m_stream.map (fun out => out ++ cstr message) :=
  have h := failed_open_leaves_sink_closed refusingHost exampleConfig "demo.log".toList
    "12:00:00".toList "2018-01-01".toList exampleLogger exampleLogger (Or.inl ⟨rfl, rfl⟩)
  ⟨rfl, h.1, fun message => ⟨(h.2.1 message).1, (h.2.1 message).2.2.2.2⟩⟩

/-- C10 as stated fails: on a logger with a mirror, after `open` has failed
because the directory cannot be created, a write is not without effect: the
message is appended to the mirror. -/
theorem write_after_failed_open_reaches_mirror :
    Logger.open refusingHost exampleConfig "demo.log".toList "2018-01-01".toList mirroredLogger
      = .ok (false, mirroredLogger) ∧
    mirroredLogger.m_file.is_open = false ∧
    mirroredLogger.m_stream = some [] ∧
    (Logger.write "x".toList mirroredLogger).m_stream = some "x".toList ∧
    (Logger.write "x".toList mirroredLogger).m_stream ≠ mirroredLogger.m_stream :=
  ⟨rfl, rfl, rfl, rfl, by decide⟩

/-! ## Writes and the mutex -/

theorem log_ok_wrote (host : Host) (format : Str) (args : List Arg) (L L' : Logger)
    (h : ILogger.log host format args L = .ok L') : ∃ t, Logger.wrote L L' t := by
  unfold ILogger.log ILogger.logRendered at h
  simp only [] at h
  split at h
  · split at h
    · exact Except.noConfusion h
    · rw [← Except.ok.inj h]
      exact ⟨_, wrote_write L _ L.m_buffer_time _⟩
  · rw [← Except.ok.inj h]
    exact ⟨_, wrote_write L _ L.m_buffer_time _⟩

theorem logList_ok_wrote (host : Host) (list : List Value) (del : Str) (L L' : Logger)
    (h : ILogger.logList host list del L = .ok L') : ∃ t, Logger.wrote L L' t := by
  unfold ILogger.logList at h
  split at h
  · exact Except.noConfusion h
  · rw [← Except.ok.inj h]
    exact ⟨_, wrote_write L L.m_buffer L.m_buffer_time _⟩

theorem step_fragment_wrote (host : Host) (cfg : Config) (op : Op) (L L' : Logger)
    (hop : op.writesFragment = true) (h : step host cfg op L = .ok L') :
    ∃ t, Logger.wrote L L' t := by
  cases op with
  | lock => exact absurd hop (by decide)
  | unlock => exact absurd hop (by decide)
  | endl => exact absurd hop (by decide)
  | changeLog a b c => exact absurd hop (by simp [Op.writesFragment])
  | destroy c => exact absurd hop (by simp [Op.writesFragment])
  | time clock =>
    rw [← Except.ok.inj h]
    exact ⟨_, (time_wrote clock L).1⟩
  | severity sev =>
    obtain ⟨label, L'', _, h2, h3, _⟩ := severity_wrote sev L
    have h' : ILogger.severity sev L = .ok L' := h
    rw [← Except.ok.inj (h2.symm.trans h')]
    exact ⟨_, h3⟩
  | funcline function line => exact log_ok_wrote host _ _ L L' h
  | log format args => exact log_ok_wrote host _ _ L L' h
  | logList list del => exact logList_ok_wrote host list del L L' h
  | eol =>
    rw [← Except.ok.inj h]
    exact ⟨_, (eol_wrote host L).1⟩
  | insert data =>
    rw [← Except.ok.inj h]
    exact ⟨_, wrote_write L L.m_buffer L.m_buffer_time _⟩
  | insertSeverity sev =>
    have h' : Logger.insertSeverity sev L = .ok L' := h
    unfold Logger.insertSeverity at h'
    split at h'
    · rw [← Except.ok.inj h']
      exact ⟨_, wrote_write L L.m_buffer L.m_buffer_time _⟩
    · exact Except.noConfusion h'
  | insertCStr msg =>
    rw [← Except.ok.inj h]
    exact ⟨_, wrote_write L L.m_buffer L.m_buffer_time _⟩

theorem run_cons_ok (host : Host) (cfg : Config) (op : Op) (rest : List Op) (L L' : Logger)
    (h : step host cfg op L = .ok L') :
    run host cfg (op :: rest) L = run host cfg rest L' := by
  rw [run, h]

theorem run_cons_error (host : Host) (cfg : Config) (op : Op) (rest : List Op) (L : Logger)
    (e : Fault) (h : step host cfg op L = .error e) :
    run host cfg (op :: rest) L = (L, some e) := by
  rw [run, h]

theorem run_inChains (host : Host) (cfg : Config) (ops : List Op) :
    ∀ (L : Logger), inChains L.m_mutex ops = true →
      ∃ events, (run host cfg ops L).1.trace = L.trace ++ events ∧
        ∀ e ∈ events, e.lockFreeWrite = false := by
  induction ops with
  | nil =>
    intro L _
    exact ⟨[], by simp [run], by simp⟩
  | cons op rest ih =>
    intro L h
    cases hstep : step host cfg op L with
    | error e =>
      rw [run_cons_error host cfg op rest L e hstep]
      exact ⟨[], by simp, by simp⟩
    | ok L' =>
      rw [run_cons_ok host cfg op rest L L' hstep]
      by_cases hl : op = Op.lock
      · subst hl
        have hfree : L.m_mutex = false := by
          cases hm : L.m_mutex with
          | false => rfl
          | true => rw [hm] at h; simp [inChains] at h
        have hL' := Except.ok.inj ((lock_ok L hfree).symm.trans hstep)
        rw [hfree] at h
        simp only [inChains, Bool.not_false, Bool.true_and] at h
        obtain ⟨ev, h1, h2⟩ := ih L' (by rw [← hL']; exact h)
        refine ⟨Event.lock :: ev, ?_, ?_⟩
        · rw [h1, ← hL']
          simp
        · intro e he
          rcases List.mem_cons.1 he with rfl | he
          · rfl
          · exact h2 e he
      · by_cases hu : op = Op.unlock
        · subst hu
          have hheld : L.m_mutex = true := by
            cases hm : L.m_mutex with
            | true => rfl
            | false => rw [hm] at h; simp [inChains] at h
          have hL' := Except.ok.inj ((unlock_ok L hheld).symm.trans hstep)
          rw [hheld] at h
          simp only [inChains, Bool.true_and] at h
          obtain ⟨ev, h1, h2⟩ := ih L' (by rw [← hL']; exact h)
          refine ⟨Event.unlock :: ev, ?_, ?_⟩
          · rw [h1, ← hL']
            simp
          · intro e he
            rcases List.mem_cons.1 he with rfl | he
            · rfl
            · exact h2 e he
        · have h3 : L.m_mutex = true ∧ op.writesFragment = true
              ∧ inChains true rest = true := by
            cases op <;> simp [inChains, Op.writesFragment] at h hl hu ⊢ <;>
              (obtain ⟨a, b⟩ := h; rw [a] at b; exact ⟨a, b⟩)
          obtain ⟨t, w1, _, w3, _⟩ := step_fragment_wrote host cfg op L L' h3.2.1 hstep
          obtain ⟨ev, h1, h2⟩ := ih L' (by rw [w3, h3.1]; exact h3.2.2)
          refine ⟨Event.write true t :: ev, ?_, ?_⟩
          · rw [h1, w1, h3.1]
            simp
          · intro e he
            rcases List.mem_cons.1 he with rfl | he
            · rfl
            · exact h2 e he

theorem fileOpen_trace (host : Host) (path : Str) (L : Logger) :
    (Logger.fileOpen host path L).trace = L.trace ∧
      (Logger.fileOpen host path L).m_mutex = L.m_mutex := by
  unfold Logger.fileOpen
  split
  · exact ⟨rfl, rfl⟩
  · split <;> exact ⟨rfl, rfl⟩

theorem open_trace (host : Host) (cfg : Config) (logfile clock : Str) (L : Logger)
    (r : Bool × Logger) (h : Logger.open host cfg logfile clock L = .ok r) :
    r.2.m_mutex = L.m_mutex ∧ ∃ events, r.2.trace = L.trace ++ events ∧
      ∀ e ∈ events, ∃ t, e = Event.write L.m_mutex t := by
  unfold Logger.open at h
  split at h
  · rw [← Except.ok.inj h]
    exact ⟨rfl, [], by simp, by simp⟩
  · obtain ⟨f1, f2⟩ := fileOpen_trace host (resolve host cfg logfile) L
    simp only [] at h
    split at h
    · rw [← Except.ok.inj h]
      exact ⟨f2, [], by simp [f1], by simp⟩
    · split at h
      · rename_i L' hh
        rw [← Except.ok.inj h]
        unfold Logger.header Logger.currentDate at hh
        obtain ⟨t, w1, _, w3, _⟩ := log_ok_wrote host _ _ _ L' hh
        simp only [] at w1 w3
        refine ⟨w3.trans f2, [Event.write L.m_mutex t], ?_, ?_⟩
        · rw [w1, f1, f2]
        · intro e he
          exact ⟨t, List.mem_singleton.1 he⟩
      · exact Except.noConfusion h

theorem close_trace (host : Host) (cfg : Config) (clock : Str) (L L2 : Logger)
    (h : Logger.close host cfg clock L = .ok L2) :
    L2.m_mutex = L.m_mutex ∧ ∃ events, L2.trace = L.trace ++ events ∧
      ∀ e ∈ events, ∃ t, e = Event.write L.m_mutex t := by
  unfold Logger.close at h
  split at h
  · rw [← Except.ok.inj h]
    exact ⟨rfl, [], by simp, by simp⟩
  · cases hf : Logger.footer host cfg clock L with
    | error e =>
      rw [hf] at h
      exact Except.noConfusion h
    | ok L' =>
      rw [hf] at h
      rw [← Except.ok.inj h]
      unfold Logger.footer Logger.currentTime at hf
      obtain ⟨t, w1, _, w3, _⟩ := log_ok_wrote host _ _ _ L' hf
      simp only [] at w1 w3
      refine ⟨w3, [Event.write L.m_mutex t], w1, ?_⟩
      intro e he
      exact ⟨t, List.mem_singleton.1 he⟩

theorem changeLog_trace (host : Host) (cfg : Config) (logfile closeClock openClock : Str)
    (L : Logger) (r : Bool × Logger)
    (h : Logger.changeLog host cfg logfile closeClock openClock L = .ok r) :
    r.2.m_mutex = L.m_mutex ∧ ∃ events, r.2.trace = L.trace ++ events ∧
      ∀ e ∈ events, ∃ t, e = Event.write L.m_mutex t := by
  unfold Logger.changeLog at h
  cases hc : Logger.close host cfg closeClock L with
  | error e =>
    rw [hc] at h
    exact Except.noConfusion h
  | ok L2 =>
    rw [hc] at h
    obtain ⟨c1, ev1, c2, c3⟩ := close_trace host cfg closeClock L L2 hc
    obtain ⟨o1, ev2, o2, o3⟩ := open_trace host cfg logfile openClock L2 r h
    refine ⟨o1.trans c1, ev1 ++ ev2, by rw [o2, c2, List.append_assoc], ?_⟩
    intro e he
    rcases List.mem_append.1 he with he | he
    · exact c3 e he
    · rw [← c1]
      exact o3 e he

/-- C6, as amended: in a sequence of calls that keeps the discipline of the
chains (`lock` when the mutex is free, `unlock` when it is held, and `time`,
`severity`, `funcline`, `log`, `eol` and the stream insertions other than the one
of `std::endl` only while it is held), every call of `write`, up to the end of
the sequence or to the call that runs into a fault, is made while the mutex is
held.  The life-cycle operations do not touch the mutex: the construction of a
logger, `changeLog` and the destruction make their calls of `write` with the
mutex as the caller left it. -/
theorem chain_writes_hold_lock (host : Host) (cfg : Config) (ops : List Op) (L : Logger)
    (h : inChains L.m_mutex ops = true) :
    (∃ events, (run host cfg ops L).1.trace = L.trace ++ events ∧
      ∀ e ∈ events, e.lockFreeWrite = false) ∧
    (∀ (K : Logger) (logfile closeClock openClock : Str) (r : Bool × Logger),
      Logger.changeLog host cfg logfile closeClock openClock K = .ok r →
      r.2.m_mutex = K.m_mutex ∧ ∃ events, r.2.trace = K.trace ++ events ∧
        ∀ e ∈ events, ∃ t, e = Event.write K.m_mutex t) ∧
    (∀ (K K' : Logger) (clock : Str), Logger.destroy host cfg clock K = .ok K' →
      K'.m_mutex = K.m_mutex ∧ ∃ events, K'.trace = K.trace ++ events ∧
        ∀ e ∈ events, ∃ t, e = Event.write K.m_mutex t) ∧
    (∀ (buffer_size : Nat) (disk : Str → Option Str) (mirror : Option Str)
      (filename clock : Str) (K : Logger),
      Logger.construct host cfg buffer_size disk mirror filename clock = .ok K →
      K.m_mutex = false ∧ ∀ e ∈ K.trace, ∃ t, e = Event.write false t) := by
  refine ⟨run_inChains host cfg ops L h, ?_, ?_, ?_⟩
  · intro K logfile closeClock openClock r hr
    exact changeLog_trace host cfg logfile closeClock openClock K r hr
  · intro K K' clock hd
    exact close_trace host cfg clock K K' hd
  · intro buffer_size disk mirror filename clock K hK
    unfold Logger.construct at hK
    cases ho : Logger.open host cfg filename clock (ILogger.init buffer_size disk mirror) with
    | error e =>
      rw [ho] at hK
      exact Except.noConfusion hK
    | ok r =>
      rw [ho] at hK
      obtain ⟨o1, ev, o2, o3⟩ := open_trace host cfg filename clock _ r ho
      rw [← Except.ok.inj hK]
      refine ⟨o1, ?_⟩
      intro e he
      rw [o2] at he
      exact o3 e (by simpa [ILogger.init] using he)

set_option maxRecDepth 100000 in
/-- C6, at a concrete input: the chain of `LOG_INSTANCE_FORMAT_LN` on a new
logger. -/
theorem chain_writes_hold_lock_witness :
    inChains exampleLogger.m_mutex exampleChain = true ∧
    ∃ events, (run exampleHost exampleConfig exampleChain exampleLogger).1.trace
        = exampleLogger.trace ++ events ∧
      ∀ e ∈ events, e.lockFreeWrite = false :=
  ⟨rfl, (chain_writes_hold_lock exampleHost exampleConfig exampleChain exampleLogger rfl).1⟩

set_option maxRecDepth 100000 in
/-- C6 as stated fails: `changeLog` on a new logger, which is what `INIT_LOG`
does, returns true and has written the header while the mutex was free. -/
theorem changeLog_writes_header_without_lock :
    run exampleHost exampleConfig
      [Op.changeLog "demo.log".toList "12:00:00".toList "2018-01-01".toList] exampleLogger
      = (stateOr exampleLogger Prod.snd (Logger.changeLog exampleHost exampleConfig
          "demo.log".toList "12:00:00".toList "2018-01-01".toList exampleLogger), none) ∧
    exampleLogger.m_mutex = false ∧
    (stateOr exampleLogger Prod.snd (Logger.changeLog exampleHost exampleConfig
        "demo.log".toList "12:00:00".toList "2018-01-01".toList exampleLogger)).trace
      = [Event.write false (headerRendering exampleConfig "2018-01-01".toList).dropLast] ∧
    (run exampleHost exampleConfig
      [Op.changeLog "demo.log".toList "12:00:00".toList "2018-01-01".toList]
      exampleLogger).1.trace.any Event.lockFreeWrite = true :=
  ⟨rfl, rfl, by decide, by decide⟩

/-- The operator reached by `std::endl`, called while the mutex is held, releases
the mutex first and writes the end-of-line marker afterwards. -/
theorem endl_writes_after_unlock (host : Host) (L : Logger) (h : L.m_mutex = true) :
    ∃ L', ILogger.endl host L = .ok L' ∧ L'.m_mutex = false ∧
      L'.trace = L.trace ++ [Event.unlock, Event.write false (cstr host.endOfLine)] := by
  unfold ILogger.endl
  rw [unlock_ok L h]
  obtain ⟨w1, _, w3, _⟩ := (eol_wrote host
    { L with m_mutex := false, trace := L.trace ++ [Event.unlock] }).1
  exact ⟨_, rfl, w3, by rw [w1]; simp⟩

/-! ## Tagged values -/

theorem logList_twice (host : Host) (v : Value) (L : Logger) :
    ILogger.logList host [v, v] [] L =
      match v.render host with
      | some t => .ok (Logger.write (t ++ t) L)
      | none => .error .inactiveMember := by
  cases hv : v.render host with
  | none => simp [ILogger.logList, insertAll, hv]
  | some t =>
    have hr : renderAll host [v, v] = some [t, t] := by simp [renderAll, hv]
    rw [logList_writes host [v, v] [] [t, t] L hr]
    simp [eachFollowedBy, cstr]

/-- C12: each of the six constructors sets its own tag and stores its own union
member, and the stream insertion of the value reads that member: a signed
integer gives its decimal text, with a minus sign in front when it is negative,
an unsigned integer its decimal text, a floating point value the text of the
host, a boolean `1` for true and `0` for false, a `const char*` the C string it
points to, which is the whole text when that holds no NUL.  The text depends on
the value alone: inserted twice in a row, a value gives the same text twice. -/
theorem value_render_reads_stored_member (host : Host) :
    (∀ i : Int, (Value.ofInt i).tag = ValueTag.INT ∧ (Value.ofInt i).un = ValueUnion.i i ∧
      (Value.ofInt i).render host
        = some (if i < 0 then '-' :: Nat.toDigits 10 i.natAbs else Nat.toDigits 10 i.natAbs)) ∧
    (∀ u : Nat, (Value.ofUnsigned u).tag = ValueTag.UNSIGNED ∧
      (Value.ofUnsigned u).un = ValueUnion.u u ∧
      (Value.ofUnsigned u).render host = some (Nat.toDigits 10 u)) ∧
    (∀ f : Nat, (Value.ofFloat f).tag = ValueTag.FLOAT ∧ (Value.ofFloat f).un = ValueUnion.f f ∧
      (Value.ofFloat f).render host = some (host.showFloat f)) ∧
    (∀ d : Nat, (Value.ofDouble d).tag = ValueTag.DOUBLE ∧
      (Value.ofDouble d).un = ValueUnion.d d ∧
      (Value.ofDouble d).render host = some (host.showDouble d)) ∧
    (∀ b : Bool, (Value.ofBool b).tag = ValueTag.BOOL ∧ (Value.ofBool b).un = ValueUnion.b b ∧
      (Value.ofBool b).render host = some (if b then "1".toList else "0".toList)) ∧
    (∀ s : Str, (Value.ofString s).tag = ValueTag.STRING ∧
      (Value.ofString s).un = ValueUnion.s s ∧
      (Value.ofString s).render host = some (cstr s) ∧
      ((∀ c ∈ s, c ≠ NUL) → (Value.ofString s).render host = some s)) ∧
    (Value.ofInt (-42)).render host = some "-42".toList ∧
    (Value.ofInt 0).render host = some "0".toList ∧
    (Value.ofUnsigned 4294967295).render host = some "4294967295".toList ∧
    (Value.ofBool true).render host = some "1".toList ∧
    (Value.ofBool false).render host = some "0".toList ∧
    (Value.ofString "ok".toList).render host = some "ok".toList ∧
    (∀ (v : Value) (L : Logger), ILogger.logList host [v, v] [] L =
      match v.render host with
      | some t => .ok (Logger.write (t ++ t) L)
      | none => .error .inactiveMember) := by
  refine ⟨fun i => ⟨rfl, rfl, rfl⟩, fun u => ⟨rfl, rfl, rfl⟩, fun f => ⟨rfl, rfl, rfl⟩,
    fun d => ⟨rfl, rfl, rfl⟩, fun b => ⟨rfl, rfl, ?_⟩, fun s => ⟨rfl, rfl, rfl, ?_⟩,
    rfl, rfl, rfl, rfl, rfl, rfl,
    fun v L => logList_twice host v L⟩
  · cases b <;> rfl
  · intro h
    show some (cstr s) = some s
    rw [cstr_of_nul_free s h]

/-! ## The header block -/

theorem dropLast_two_newlines (A : Str) : (A ++ "\n\n".toList).dropLast = A ++ "\n".toList := by
  have : "\n\n".toList = "\n".toList ++ ['\n'] := rfl
  rw [this, ← List.append_assoc, List.dropLast_concat]

theorem headerRendering_dropLast (cfg : Config) (clock : Str) :
    (headerRendering cfg clock).dropLast =
      delimiter ++ "\n  ".toList ++ cstr cfg.project_name ++ " ".toList
        ++ (if cfg.debug then "Debug".toList else "Release".toList) ++ " ".toList
        ++ Nat.toDigits 10 cfg.major_version ++ ".".toList
        ++ Nat.toDigits 10 cfg.minor_version ++ " - Event log - ".toList
        ++ timeAndDateFormat clock
        ++ "\n  git branch: ".toList ++ cstr cfg.git_branch
        ++ "\n  git SHA1: ".toList ++ cstr cfg.git_sha1 ++ "\n".toList
        ++ delimiter ++ "\n".toList := by
  unfold headerRendering
  rw [header_rendering, Option.getD_some, dropLast_two_newlines, timeAndDateFormat_cstr]

theorem open_succeeds (host : Host) (cfg : Config) (logfile clock : Str) (L : Logger)
    (hclosed : L.m_file.path = none)
    (hmk : host.mkdir (resolveDir host cfg logfile) = true)
    (hcan : host.canCreate (resolve host cfg logfile) = true)
    (hfit : (headerRendering cfg clock).length ≤ L.m_buffer.length) :
    ∃ L1, Logger.open host cfg logfile clock L = .ok (true, L1) := by
  obtain ⟨L', h1, _, _⟩ := header_spec host cfg clock
    { L with m_file := ⟨some (resolve host cfg logfile), false⟩
             disk := fun q => if q = resolve host cfg logfile then some [] else L.disk q } hfit
  refine ⟨L', ?_⟩
  unfold Logger.open
  rw [hmk, if_neg (by simp), fileOpen_closed host _ L hclosed hcan]
  simp only [OFStream.is_open]
  rw [if_neg (by simp), h1]

/-- What `open` leaves in the new file, for every project data: on a logger whose
stream is closed, when the directory and the file can be created and the rendered
header is not longer than the buffer, `open` returns true and the file holds the
delimiter line of 54 `=`; the line of two spaces, the project, `Debug` when the
debug flag is set and `Release` otherwise, the two version numbers and the date;
the line of two spaces and `git branch: <branch>`; the line of two spaces and
`git SHA1: <sha>`; and the delimiter line with its newline, where the text ends:
the second of the two newlines that end the format of `header` is not in the
file. -/
theorem open_writes_header_block (host : Host) (cfg : Config) (logfile clock : Str)
    (L : Logger) (hclosed : L.m_file.is_open = false)
    (hmk : host.mkdir (resolveDir host cfg logfile) = true)
    (hcan : host.canCreate (resolve host cfg logfile) = true)
    (hfit : (headerRendering cfg clock).length ≤ L.m_buffer.length) :
    ∃ L1, Logger.open host cfg logfile clock L = .ok (true, L1) ∧
      L1.disk (resolve host cfg logfile) = some
        (delimiter ++ "\n".toList
          ++ "  ".toList ++ cstr cfg.project_name ++ " ".toList
          ++ (if cfg.debug then "Debug".toList else "Release".toList) ++ " ".toList
          ++ Nat.toDigits 10 cfg.major_version ++ ".".toList
          ++ Nat.toDigits 10 cfg.minor_version ++ " - Event log - ".toList
          ++ timeAndDateFormat clock ++ "\n".toList
          ++ "  ".toList ++ "git branch: ".toList ++ cstr cfg.git_branch ++ "\n".toList
          ++ "  ".toList ++ "git SHA1: ".toList ++ cstr cfg.git_sha1 ++ "\n".toList
          ++ delimiter ++ "\n".toList) := by
  have hc := path_none_of_not_open L hclosed
  obtain ⟨L1, hopen⟩ := open_succeeds host cfg logfile clock L hc hmk hcan hfit
  obtain ⟨_, _, _, _, hdisk, _⟩ := open_success host cfg logfile clock L L1 hc hopen
  refine ⟨L1, hopen, ?_⟩
  rw [hdisk, headerRendering_dropLast]
  simp only [if_true]
  have e1 : "\n  ".toList = "\n".toList ++ "  ".toList := rfl
  have e2 : "\n  git branch: ".toList = "\n".toList ++ "  ".toList ++ "git branch: ".toList := rfl
  have e3 : "\n  git SHA1: ".toList = "\n".toList ++ "  ".toList ++ "git SHA1: ".toList := rfl
  rw [e1, e2, e3]
  simp only [List.append_assoc]

set_option maxRecDepth 100000 in
/-- The file of a new logger that opens `demo.log`. -/
theorem open_writes_header_block_witness :
    ∃ L1, Logger.open exampleHost exampleConfig "demo.log".toList "2018-01-01".toList
        exampleLogger = .ok (true, L1) ∧
      L1.disk "/tmp/demo.log".toList = some demoHeader := by
  obtain ⟨L1, h1, h2⟩ := open_writes_header_block exampleHost exampleConfig "demo.log".toList
    "2018-01-01".toList exampleLogger rfl rfl rfl (by decide)
  refine ⟨L1, h1, ?_⟩
  have e : resolve exampleHost exampleConfig "demo.log".toList = "/tmp/demo.log".toList := by
    decide
  rw [e] at h2
  rw [h2]
  decide

set_option maxRecDepth 100000 in
/-- C11, at a failing input: a new logger opens `demo.log`; the header fits the
buffer and `open` returns true.  The text `header` renders from its format is the
block followed by a blank line, as the file format has it, but the file holds
that text without its last newline: it ends with the newline of the second
delimiter line, and the blank line that ends the block of the file format is
missing. -/
theorem open_header_has_no_blank_line :
    (headerRendering exampleConfig "2018-01-01".toList).length
      ≤ exampleLogger.m_buffer.length ∧
    Logger.open exampleHost exampleConfig "demo.log".toList "2018-01-01".toList exampleLogger
      = .ok (true, demoLogger) ∧
    demoLogger.disk "/tmp/demo.log".toList = some demoHeader ∧
    headerRendering exampleConfig "2018-01-01".toList = demoHeader ++ "\n".toList ∧
    demoHeader.reverse.take 2 = ['\n', '='] ∧
    (specHeaderBlock "demo".toList true 1 2 "2018-01-01".toList "master".toList
      "c9e5b68".toList).reverse.take 2 = ['\n', '\n'] :=
  ⟨by decide, rfl, by decide, by decide, by decide, by decide⟩

/-! ## The length of what `log` writes -/

theorem cstr_length_le (l : Str) : ∀ k, l[k]? = some NUL → (cstr l).length ≤ k := by
  induction l with
  | nil => intro k h; simp at h
  | cons a l ih =>
    intro k h
    unfold cstr
    rw [List.takeWhile_cons]
    cases k with
    | zero =>
      have ha : a = NUL := by simpa using h
      subst ha
      simp
    | succ k =>
      have hl : l[k]? = some NUL := by simpa using h
      have := ih k hl
      unfold cstr at this
      split
      · simp only [List.length_cons]
        omega
      · simp

theorem vsnprintf_terminated (buf t : Str) (h : 0 < buf.length) :
    (vsnprintf buf buf.length t).1[min t.length (buf.length - 1)]? = some NUL := by
  unfold vsnprintf
  rw [if_neg (by omega)]
  simp only []
  rw [List.getElem?_append_right (by simp)]
  simp

/-- Whenever the statements of `log` return, the text handed to the sink has at
most `size - 1` characters, `size` being the size of `m_buffer`, and is not
longer than the rendered text. -/
theorem logRendered_writes_at_most (L L' : Logger) (t : Str)
    (h : ILogger.logRendered t L = .ok L') :
    ∃ text, Logger.wrote L L' text ∧ text.length ≤ L.m_buffer.length - 1 ∧
      text.length ≤ t.length := by
  by_cases hcap : L.m_buffer.length = 0
  · have hbuf : L.m_buffer = [] := List.length_eq_zero.1 hcap
    unfold ILogger.logRendered vsnprintf at h
    rw [if_pos hcap] at h
    simp only [] at h
    split at h
    · rw [hbuf] at h
      simp at h
    · rw [← Except.ok.inj h]
      refine ⟨_, wrote_write L _ L.m_buffer_time _, ?_, ?_⟩ <;> simp [hbuf, cstr]
  · have hpos : 0 < L.m_buffer.length := Nat.pos_of_ne_zero hcap
    have hterm := vsnprintf_terminated L.m_buffer t hpos
    have hk1 : min t.length (L.m_buffer.length - 1) ≤ L.m_buffer.length - 1 := Nat.min_le_right _ _
    have hk2 : min t.length (L.m_buffer.length - 1) ≤ t.length := Nat.min_le_left _ _
    unfold ILogger.logRendered at h
    simp only [] at h
    split at h
    · split at h
      · exact Except.noConfusion h
      · rename_i c0 _
        rw [← Except.ok.inj h]
        refine ⟨_, wrote_write L _ L.m_buffer_time _, ?_⟩
        have hb : ∀ (c : Char), (if c = '\n'
            then (vsnprintf L.m_buffer L.m_buffer.length t).1.set
              ((vsnprintf L.m_buffer L.m_buffer.length t).2 - 1) NUL
            else (vsnprintf L.m_buffer L.m_buffer.length t).1)[
              min t.length (L.m_buffer.length - 1)]? = some NUL := by
          intro c
          split
          · rw [List.getElem?_set]
            split
            · have hlt : min t.length (L.m_buffer.length - 1)
                  < (vsnprintf L.m_buffer L.m_buffer.length t).1.length := by
                rw [vsnprintf_length]
                omega
              rename_i heq
              rw [← heq] at hlt
              simp [hlt]
            · exact hterm
          · exact hterm
        have := cstr_length_le _ _ (hb c0)
        exact ⟨le_trans this hk1, le_trans this hk2⟩
    · rw [← Except.ok.inj h]
      refine ⟨_, wrote_write L _ L.m_buffer_time _, ?_⟩
      have := cstr_length_le _ _ hterm
      exact ⟨le_trans this hk1, le_trans this hk2⟩

/-- C13, at a failing input: with the default buffer of 1024 characters and a
format `"%s"` whose argument has 1023 characters, `log` returns and hands all
1023 characters to the sink, one more than `m_buffer.size() - 2`. -/
theorem log_writes_capacity_minus_one :
    (ILogger.init 1024 (fun _ => none) none).m_buffer.length = 1024 ∧
    vformat "%s".toList [Arg.str (List.replicate 1023 'a')] = some (List.replicate 1023 'a') ∧
    (∀ host : Host, ∃ L', ILogger.log host "%s".toList [Arg.str (List.replicate 1023 'a')]
        (ILogger.init 1024 (fun _ => none) none) = .ok L' ∧
      Logger.wrote (ILogger.init 1024 (fun _ => none) none) L' (List.replicate 1023 'a')) ∧
    (List.replicate 1023 'a').length = 1024 - 1 ∧
    ¬ (List.replicate 1023 'a').length ≤ 1024 - 2 := by
  have hlen : (ILogger.init 1024 (fun _ => none) none).m_buffer.length = 1024 := by
    rw [init_buffer_length]
    rfl
  have hnul : ∀ c ∈ List.replicate 1023 'a', c ≠ NUL := by
    intro c hc
    rw [List.mem_replicate] at hc
    rw [hc.2]
    decide
  have hr : vformat "%s".toList [Arg.str (List.replicate 1023 'a')]
      = some (List.replicate 1023 'a') := vformat_percent_s _ hnul
  have hdrop : dropNewline (List.replicate 1023 'a') = List.replicate 1023 'a' := by
    have e : List.replicate 1023 'a' = List.replicate 1022 'a' ++ ['a'] :=
      List.replicate_succ' 1022 'a'
    rw [e, dropNewline_concat, if_neg (by decide)]
  refine ⟨hlen, hr, ?_, ?_, ?_⟩
  · intro host
    obtain ⟨L', h1, h2, _⟩ := log_wrote host (ILogger.init 1024 (fun _ => none) none) _ _ _
      (vrender_of_vformat host _ _ _ hr) hnul (by rw [hlen, List.length_replicate]; decide)
    rw [hdrop] at h2
    exact ⟨L', h1, h2⟩
  · rw [List.length_replicate]
  · rw [List.length_replicate]
    decide

/-! ## Concurrent callers -/

theorem ownerAfter_cons (o : Option Nat) (e : Nat × Event) (rest : List (Nat × Event)) :
    ownerAfter o (e :: rest) = match ownerNext o e with
      | some o' => ownerAfter o' rest
      | none => none := rfl

theorem ownerAfter_append (es fs : List (Nat × Event)) :
    ∀ (o o' : Option Nat), ownerAfter o es = some o' →
      ownerAfter o (es ++ fs) = ownerAfter o' fs := by
  induction es with
  | nil =>
    intro o o' h
    simp only [ownerAfter, Option.some.injEq] at h
    subst h
    rfl
  | cons e es ih =>
    intro o o' h
    rw [List.cons_append, ownerAfter_cons]
    rw [ownerAfter_cons] at h
    cases hn : ownerNext o e with
    | none => rw [hn] at h; exact Option.noConfusion h
    | some o1 => rw [hn] at h; exact ih o1 o' h

theorem completeChains_cons_other (held : Bool) (op : Op) (rest : List Op)
    (hl : op ≠ Op.lock) (hu : op ≠ Op.unlock) (h : completeChains held (op :: rest) = true) :
    held = true ∧ op.writesFragment = true ∧ completeChains true rest = true := by
  cases op <;> simp [completeChains, Op.writesFragment] at h hl hu ⊢ <;>
    (obtain ⟨a, b⟩ := h; rw [a] at b; exact ⟨a, b⟩)

theorem isLock_of_ne (op : Op) (hl : op ≠ Op.lock) : op.isLock = false := by
  cases op <;> simp [Op.isLock] at hl ⊢

/-- A turn in which the call is made and adds one event to the trace. -/
theorem turn_call (host : Host) (cfg : Config) (i : Nat) (s : Shared) (op : Op)
    (rest : List Op) (L' : Logger) (e : Event)
    (hh : s.halted = false) (hp : s.programs[i]? = some (op :: rest))
    (hw : (op.isLock && s.logger.m_mutex) = false)
    (hstep : step host cfg op s.logger = .ok L')
    (htrace : L'.trace = s.logger.trace ++ [e]) :
    turn host cfg i s = { logger := L', programs := s.programs.set i rest,
                          events := s.events ++ [(i, e)], halted := false } := by
  unfold turn
  rw [if_neg (by simp [hh]), hp]
  simp only []
  rw [if_neg (by simp [hw]), hstep]
  simp only [htrace, List.drop_left, List.map_cons, List.map_nil]

theorem sinkText_append (es fs : List (Nat × Event)) :
    sinkText (es ++ fs) = sinkText es ++ sinkText fs := by
  induction es with
  | nil => rfl
  | cons e es ih =>
    show e.2.text ++ sinkText (es ++ fs) = e.2.text ++ sinkText es ++ sinkText fs
    rw [ih, List.append_assoc]

theorem sinkText_concat (es : List (Nat × Event)) (i : Nat) (e : Event) :
    sinkText (es ++ [(i, e)]) = sinkText es ++ e.text := by
  rw [sinkText_append]
  simp [sinkText]

/-- What a call that only operates on the mutex leaves of the sink: nothing new. -/
theorem sink_unchanged (L : Logger) :
    L.m_stream = L.m_stream.map (fun out => out ++ ([] : Str)) ∧
    ∀ p, L.m_file = ⟨some p, false⟩ → (L.disk p).getD [] = (L.disk p).getD [] ++ [] := by
  refine ⟨?_, fun p _ => by simp⟩
  cases L.m_stream <;> simp

/-- What a call of `write` adds to the file that is open in a good state. -/
theorem wrote_disk (L L' : Logger) (t : Str) (h : Logger.wrote L L' t) (p : Str)
    (hfile : L.m_file = ⟨some p, false⟩) :
    (L'.disk p).getD [] = (L.disk p).getD [] ++ t := by
  obtain ⟨_, _, _, _, w5⟩ := h
  rw [w5, hfile]
  simp

/-- The invariant after a turn in which the call is made and adds one event. -/
theorem inv_call (L0 : Logger) (o o' : Option Nat) (s : Shared) (i : Nat)
    (rest : List Op) (L' : Logger) (e : Event)
    (h : Shared.inv L0 o s)
    (htrace : L'.trace = s.logger.trace ++ [e])
    (hm : L'.m_mutex = o'.isSome)
    (hnext : ownerNext o (i, e) = some o')
    (hrest : completeChains (decide (o' = some i)) rest = true)
    (hothers : ∀ j, i ≠ j → decide (o' = some j) = decide (o = some j))
    (hfile : L'.m_file = s.logger.m_file)
    (hstream : L'.m_stream = s.logger.m_stream.map (fun out => out ++ e.text))
    (hdisk : ∀ p, s.logger.m_file = ⟨some p, false⟩ →
      (L'.disk p).getD [] = (s.logger.disk p).getD [] ++ e.text) :
    Shared.inv L0 o' { logger := L', programs := s.programs.set i rest,
                       events := s.events ++ [(i, e)], halted := false } := by
  obtain ⟨_, h2, h3, h4, h5, h6, h7⟩ := h
  refine ⟨hm, ?_, ?_, ?_, hfile.trans h5, ?_, ?_⟩
  · intro j p hj
    simp only [] at hj
    rw [List.getElem?_set] at hj
    by_cases hij : i = j
    · subst hij
      rw [if_pos rfl] at hj
      split at hj
      · rw [← Option.some.inj hj]
        exact hrest
      · exact Option.noConfusion hj
    · rw [if_neg hij] at hj
      rw [hothers j hij]
      exact h2 j p hj
  · show ownerAfter none (s.events ++ [(i, e)]) = some o'
    rw [ownerAfter_append _ _ _ _ h3, ownerAfter_cons, hnext]
    rfl
  · show L'.trace = L0.trace ++ (s.events ++ [(i, e)]).map Prod.snd
    rw [htrace, h4]
    simp
  · show L'.m_stream = L0.m_stream.map (fun out => out ++ sinkText (s.events ++ [(i, e)]))
    rw [hstream, h6, sinkText_concat]
    cases L0.m_stream <;> simp
  · intro p hp
    show (L'.disk p).getD [] = (L0.disk p).getD [] ++ sinkText (s.events ++ [(i, e)])
    rw [hdisk p (h5.trans hp), h7 p hp, sinkText_concat, List.append_assoc]

theorem turn_inv (host : Host) (cfg : Config) (L0 : Logger) (i : Nat) (s : Shared)
    (o : Option Nat) (h : Shared.inv L0 o s) :
    ∃ o', Shared.inv L0 o' (turn host cfg i s) := by
  by_cases hh : s.halted = true
  · exact ⟨o, by unfold turn; rw [if_pos hh]; exact h⟩
  · have hh' : s.halted = false := by simpa using hh
    cases hp : s.programs[i]? with
    | none => exact ⟨o, by unfold turn; rw [if_neg hh, hp]; exact h⟩
    | some prog =>
      cases prog with
      | nil => exact ⟨o, by unfold turn; rw [if_neg hh, hp]; exact h⟩
      | cons op rest =>
        have hprog := h.2.1 i (op :: rest) hp
        by_cases hw : (op.isLock && s.logger.m_mutex) = true
        · exact ⟨o, by unfold turn; rw [if_neg hh, hp]; simp only []; rw [if_pos hw]; exact h⟩
        · have hw' : (op.isLock && s.logger.m_mutex) = false := by simpa using hw
          cases hstep : step host cfg op s.logger with
          | error e =>
            refine ⟨o, ?_⟩
            unfold turn
            rw [if_neg hh, hp]
            simp only []
            rw [if_neg hw, hstep]
            exact h
          | ok L' =>
            by_cases hl : op = Op.lock
            · subst hl
              have hfree : s.logger.m_mutex = false := by simpa [Op.isLock] using hw'
              have ho : o = none := by
                have := h.1
                rw [hfree] at this
                cases o with
                | none => rfl
                | some j => simp at this
              subst ho
              have hL' := Except.ok.inj ((lock_ok s.logger hfree).symm.trans hstep)
              have hrest : completeChains true rest = true := by
                simpa [completeChains] using hprog
              have htrace : L'.trace = s.logger.trace ++ [Event.lock] := by rw [← hL']
              rw [turn_call host cfg i s Op.lock rest L' Event.lock hh' hp hw' hstep htrace]
              refine ⟨some i, inv_call L0 none (some i) s i rest L' Event.lock h htrace
                (by rw [← hL']; rfl) rfl (by simpa using hrest) ?_ (by rw [← hL'])
                (by rw [← hL']; exact (sink_unchanged s.logger).1)
                (by rw [← hL']; exact (sink_unchanged s.logger).2)⟩
              intro j hj
              simp [hj]
            · by_cases hu : op = Op.unlock
              · subst hu
                have ho : o = some i := by
                  simp only [completeChains, Bool.and_eq_true, decide_eq_true_eq] at hprog
                  exact hprog.1
                subst ho
                have hheld : s.logger.m_mutex = true := h.1
                have hL' := Except.ok.inj ((unlock_ok s.logger hheld).symm.trans hstep)
                have hrest : completeChains false rest = true := by
                  simp only [completeChains, Bool.and_eq_true] at hprog
                  exact hprog.2
                have htrace : L'.trace = s.logger.trace ++ [Event.unlock] := by rw [← hL']
                rw [turn_call host cfg i s Op.unlock rest L' Event.unlock hh' hp hw' hstep htrace]
                refine ⟨none, inv_call L0 (some i) none s i rest L' Event.unlock h htrace
                  (by rw [← hL']; rfl) (by simp [ownerNext]) (by simpa using hrest) ?_
                  (by rw [← hL'])
                  (by rw [← hL']; exact (sink_unchanged s.logger).1)
                  (by rw [← hL']; exact (sink_unchanged s.logger).2)⟩
                intro j hj
                simp [hj]
              · obtain ⟨c1, c2, c3⟩ := completeChains_cons_other _ op rest hl hu hprog
                have ho : o = some i := by simpa using c1
                subst ho
                have hheld : s.logger.m_mutex = true := h.1
                obtain ⟨t, hwrote⟩ := step_fragment_wrote host cfg op s.logger L' c2 hstep
                have w1 := hwrote.1
                have w2 := hwrote.2.1
                have w3 := hwrote.2.2.1
                have w4 := hwrote.2.2.2.1
                rw [hheld] at w1 w3
                rw [turn_call host cfg i s op rest L' (Event.write true t) hh' hp hw' hstep w1]
                exact ⟨some i, inv_call L0 (some i) (some i) s i rest L' (Event.write true t)
                  h w1 w3 (by simp [ownerNext]) (by simpa using c3) (fun _ _ => rfl) w4 w2
                  (fun p hp => wrote_disk s.logger L' t hwrote p hp)⟩

theorem schedule_inv (host : Host) (cfg : Config) (L0 : Logger) (order : List Nat) :
    ∀ (s : Shared) (o : Option Nat), Shared.inv L0 o s →
      ∃ o', Shared.inv L0 o' (schedule host cfg order s) := by
  induction order with
  | nil => intro s o h; exact ⟨o, h⟩
  | cons i order ih =>
    intro s o h
    obtain ⟨o1, h1⟩ := turn_inv host cfg L0 i s o h
    exact ih _ o1 h1

theorem start_inv (L : Logger) (programs : List (List Op)) (hfree : L.m_mutex = false)
    (hchains : ∀ p ∈ programs, completeChains false p = true) :
    Shared.inv L none (Shared.start L programs) := by
  refine ⟨hfree, ?_, rfl, by simp [Shared.start], rfl, ?_, ?_⟩
  · intro i p hp
    have hmem : p ∈ programs := List.getElem?_mem hp
    simpa using hchains p hmem
  · show L.m_stream = L.m_stream.map (fun out => out ++ sinkText [])
    exact (sink_unchanged L).1
  · intro p _
    show (L.disk p).getD [] = (L.disk p).getD [] ++ sinkText []
    simp [sinkText]

/-- C7: any number of callers share one logger whose mutex is free; each makes
the calls of complete chains, a chain being a `lock`, fragment writers and an
`unlock`; the callers take turns in any order, one call at a time, and a `lock`
on a held mutex waits.  Then, at every moment, the events are chains one after
the other: each starts with the grant of the mutex to a caller, goes on with
writes of that caller only, made while the mutex is held, and ends with the
unlock of that caller, so that no write of a caller stands between two writes of
another chain and the chains stand in the order of the grants.  These events are
exactly what the trace of the shared logger gained, and the sink received the
texts of the writes in the order of the events: the mirror, when there is one,
and the file that is open in a good state hold what they held before, followed by
these texts. -/
theorem concurrent_chains_are_serial (host : Host) (cfg : Config) (L : Logger)
    (programs : List (List Op)) (order : List Nat)
    (hfree : L.m_mutex = false)
    (hchains : ∀ p ∈ programs, completeChains false p = true) :
    serial (schedule host cfg order (Shared.start L programs)).events = true ∧
    (schedule host cfg order (Shared.start L programs)).logger.trace
      = L.trace ++ (schedule host cfg order (Shared.start L programs)).events.map Prod.snd ∧
    (schedule host cfg order (Shared.start L programs)).logger.m_stream
      = L.m_stream.map (fun out =>
          out ++ sinkText (schedule host cfg order (Shared.start L programs)).events) ∧
    (∀ p, L.m_file = ⟨some p, false⟩ →
      ((schedule host cfg order (Shared.start L programs)).logger.disk p).getD []
        = (L.disk p).getD []
          ++ sinkText (schedule host cfg order (Shared.start L programs)).events) := by
  obtain ⟨o, _, _, h3, h4, _, h6, h7⟩ := schedule_inv host cfg L order _ none
    (start_inv L programs hfree hchains)
  refine ⟨?_, h4, h6, h7⟩
  unfold serial
  rw [h3]
  rfl

set_option maxRecDepth 100000 in
/-- C7, at a concrete input: two callers of a logger with a mirror, the first
with two chains and the second with one; each asks for the mutex while the other
holds it and has to wait.  The events are the three chains one after the other,
in the order of the grants, and the mirror holds the three lines. -/
theorem concurrent_chains_are_serial_witness :
    mirroredLogger.m_mutex = false ∧
    (∀ p ∈ examplePrograms, completeChains false p = true) ∧
    (schedule exampleHost exampleConfig exampleOrder
        (Shared.start mirroredLogger examplePrograms)).events
      = [(0, Event.lock), (0, Event.write true "12:00:00".toList),
         (0, Event.write true "[INFO]".toList), (0, Event.write true "[main::42] ".toList),
         (0, Event.write true "x=42".toList), (0, Event.write true "\n".toList),
         (0, Event.unlock),
         (1, Event.lock), (1, Event.write true "12:00:01".toList),
         (1, Event.write true "[ERROR]".toList), (1, Event.write true "[run::7] ".toList),
         (1, Event.write true "7".toList), (1, Event.write true "\n".toList),
         (1, Event.unlock),
         (0, Event.lock), (0, Event.write true "12:00:00".toList),
         (0, Event.write true "[INFO]".toList), (0, Event.write true "[main::42] ".toList),
         (0, Event.write true "x=42".toList), (0, Event.write true "\n".toList),
         (0, Event.unlock)] ∧
    serial (schedule exampleHost exampleConfig exampleOrder
      (Shared.start mirroredLogger examplePrograms)).events = true ∧
    (schedule exampleHost exampleConfig exampleOrder
        (Shared.start mirroredLogger examplePrograms)).logger.m_stream
      = some ("12:00:00[INFO][main::42] x=42\n12:00:01[ERROR][run::7] 7\n"
          ++ "12:00:00[INFO][main::42] x=42\n").toList :=
  have h := concurrent_chains_are_serial exampleHost exampleConfig mirroredLogger
    examplePrograms exampleOrder rfl (by decide)
  ⟨rfl, by decide, by decide, h.1, by decide⟩

set_option maxRecDepth 100000 in
/-- The order of the chains is a property that can fail: the calls of
`LOG_INSTANCE(Info) << "x" << std::endl` are not a complete chain, since the
operator of `std::endl` releases the mutex before it writes the end-of-line
marker, and the events of a caller that makes them are not chains in order. -/
theorem endl_chain_is_not_serial :
    completeChains false endlChain = false ∧
    (schedule exampleHost exampleConfig [0, 0, 0, 0, 0, 0]
        (Shared.start exampleLogger [endlChain])).events
      = [(0, Event.lock), (0, Event.write true "12:00:00".toList),
         (0, Event.write true "[INFO]".toList), (0, Event.write true "[main::42] ".toList),
         (0, Event.write true "x".toList), (0, Event.unlock),
         (0, Event.write false "\n".toList)] ∧
    serial (schedule exampleHost exampleConfig [0, 0, 0, 0, 0, 0]
      (Shared.start exampleLogger [endlChain])).events = false :=
  ⟨by decide, by decide, by decide⟩

end MyLogger
